import Mathlib

/-!
Verification development for the neon_match tile-matching puzzle engine.

The definitions below are a shallow embedding of the game-state engine found
in `src/utils/gameLogic.ts` and the resolution logic of `src/App.tsx`, together
with the type declarations of `src/types.ts`.

Modelling conventions:
* The 8x8 board (`GRID_ROWS = GRID_COLS = 8`) is a total function from a pair
  of natural-number indices to a `Cell`; the source only ever reads indices
  inside the grid, so values outside the grid are irrelevant to every theorem.
* A cell's TypeScript `type` field is declared `GemType`, but at runtime it can
  be `undefined` (indexing an empty `allowedTypes` array yields `undefined`,
  and `findMatches` itself guards with `type !== undefined`).  We therefore
  model the field as `Option GemType`, with `none` standing for `undefined`.
  JavaScript `===` on this field coincides with equality of `Option GemType`
  (`undefined === undefined` is `true`).
* String identifiers such as `cell-r-c-<rnd>`, `temp-r-c-<rnd>` and
  `new-c-<rnd>` are modelled by the inductive `CellId`, keeping the three
  distinct tags and their numeric payloads.
* Calls to `Math.random()` are modelled by an explicit stream `rnd : Nat → Nat`
  consumed at an explicit, threaded index; `Math.floor(Math.random() * n)` is
  modelled as `rnd i % n`, a uniform choice of an index below `n`.
* Unbounded `while` loops are embedded as structurally recursive functions on
  an explicit iteration budget together with the loop's own guard; for each
  loop the budget is chosen (and where a theorem depends on it, proved) large
  enough that the guard, not the budget, terminates the loop.
-/

namespace NeonMatch

/-- Token kinds, from the `GemType` enum of `src/types.ts`. -/
inductive GemType where
  | RED
  | BLUE
  | GREEN
  | YELLOW
  | PURPLE
  | ORANGE
  | DIAMOND
  | STAR
  | RAINBOW
deriving DecidableEq, Repr

/-- Special-token kinds, from `SpecialType` of `src/types.ts`. -/
inductive SpecialType where
  | NONE
  | ROW_BLAST
  | COL_BLAST
  | AREA_BLAST
  | RAINBOW
deriving DecidableEq, Repr

/-- Cell lifecycle statuses, from `CellStatus` of `src/types.ts`. -/
inductive CellStatus where
  | IDLE
  | SWAPPING
  | MATCHED
  | DROPPING
  | EMPTY
  | CREATED
deriving DecidableEq, Repr

/-- Cell identifiers.  The source uses the string templates
`cell-${r}-${c}-${Math.random()}` (initial board), `temp-${r}-${c}-${Math.random()}`
(gravity placeholder) and `new-${c}-${Math.random()}` (gravity refill); the three
constructors keep those tags and their numeric payloads. -/
inductive CellId where
  | cellId (r c x : Nat)
  | tempId (r c x : Nat)
  | newId (c x : Nat)
deriving DecidableEq, Repr

/-- A grid position, from `Position` of `src/types.ts`. -/
structure Position where
  row : Nat
  col : Nat
deriving DecidableEq, Repr

/-- A board cell, from the `Cell` interface of `src/types.ts`.  The `type`
field is `Option GemType` because the runtime value can be `undefined`
(see the module comment).  Visual coordinates are integers because gravity
assigns `visualRow = r - emptySlots`, which can be negative. -/
structure Cell where
  id : CellId
  type : Option GemType
  special : SpecialType
  status : CellStatus
  row : Nat
  col : Nat
  visualRow : Int
  visualCol : Int
deriving DecidableEq, Repr

/-- `GRID_ROWS` from `src/types.ts`. -/
def GRID_ROWS : Nat := 8

/-- `GRID_COLS` from `src/types.ts`. -/
def GRID_COLS : Nat := 8

/-- A board: the `Cell[][]` grid, as a total function on indices. -/
def Board : Type := Nat → Nat → Cell

/-- Default cell used when embedding JavaScript array accesses that the source
guards to be in bounds (the value is never observable in any theorem). -/
def defaultCell : Cell :=
  { id := CellId.tempId 0 0 0, type := none, special := SpecialType.NONE,
    status := CellStatus.EMPTY, row := 0, col := 0, visualRow := 0, visualCol := 0 }

/-- Pointwise board update: the functional counterpart of `board[r][c] = cell`. -/
def updateBoard (b : Board) (r c : Nat) (cell : Cell) : Board :=
  fun r' c' => if r' = r ∧ c' = c then cell else b r' c'

/-- All grid positions in row-major order, as iterated by the source's nested
`for (r) for (c)` loops. -/
def allPositions : List (Nat × Nat) :=
  (List.range GRID_ROWS).flatMap (fun r => (List.range GRID_COLS).map (fun c => (r, c)))

/-- The set of identifiers present on the board. -/
def boardIds (b : Board) : Finset CellId :=
  (allPositions.map (fun p => (b p.1 p.2).id)).toFinset

/-!  ## Match detection (`findMatches`, `src/utils/gameLogic.ts` lines 82-121) -/

/-- The `while (k < GRID_COLS && board[r][k].type === type)` extension loop of
the horizontal scan: starting at column `k`, keep inserting the id of each cell
whose type still equals `t`, stopping at the first mismatch or the right edge.
The budget `n` is the structural-recursion argument; every call below passes
`GRID_COLS`, which exceeds the at most `GRID_COLS - k` iterations the guard
allows, so the budget never cuts the loop short. -/
def extendRunH (b : Board) (r : Nat) (t : Option GemType) :
    Nat → Nat → Finset CellId → Finset CellId
  | 0, _, acc => acc
  | n + 1, k, acc =>
    if k < GRID_COLS ∧ (b r k).type = t then
      extendRunH b r t n (k + 1) (insert (b r k).id acc)
    else acc

/-- The vertical counterpart of `extendRunH` (`while (k < GRID_ROWS && ...)`). -/
def extendRunV (b : Board) (c : Nat) (t : Option GemType) :
    Nat → Nat → Finset CellId → Finset CellId
  | 0, _, acc => acc
  | n + 1, k, acc =>
    if k < GRID_ROWS ∧ (b k c).type = t then
      extendRunV b c t n (k + 1) (insert (b k c).id acc)
    else acc

/-- One horizontal scan window at `(r, c)`: if the three cells at columns
`c, c+1, c+2` share a defined type, insert all three ids and extend rightwards
from `c+3`; otherwise leave the accumulator unchanged. -/
def scanWindowH (b : Board) (r c : Nat) (acc : Finset CellId) : Finset CellId :=
  if (b r c).type ≠ none ∧ (b r (c + 1)).type = (b r c).type ∧
      (b r (c + 2)).type = (b r c).type then
    extendRunH b r (b r c).type GRID_COLS (c + 3)
      (insert (b r (c + 2)).id (insert (b r (c + 1)).id (insert (b r c).id acc)))
  else acc

/-- One vertical scan window at `(r, c)`. -/
def scanWindowV (b : Board) (c r : Nat) (acc : Finset CellId) : Finset CellId :=
  if (b r c).type ≠ none ∧ (b (r + 1) c).type = (b r c).type ∧
      (b (r + 2) c).type = (b r c).type then
    extendRunV b c (b r c).type GRID_ROWS (r + 3)
      (insert (b (r + 2) c).id (insert (b (r + 1) c).id (insert (b r c).id acc)))
  else acc

/-- The horizontal pass of `findMatches`: rows `0..GRID_ROWS-1`, window starts
`0..GRID_COLS-3`. -/
def findMatchesH (b : Board) : Finset CellId :=
  (List.range GRID_ROWS).foldl
    (fun acc r => (List.range (GRID_COLS - 2)).foldl (fun acc c => scanWindowH b r c acc) acc)
    ∅

/-- `findMatches` (`src/utils/gameLogic.ts` lines 82-121): the horizontal pass
followed by the vertical pass, accumulating one set of matched identifiers. -/
def findMatches (b : Board) : Finset CellId :=
  (List.range GRID_COLS).foldl
    (fun acc c => (List.range (GRID_ROWS - 2)).foldl (fun acc r => scanWindowV b c r acc) acc)
    (findMatchesH b)

/-- Cell `(r, c)` lies on a horizontal straight run of length at least 3 of one
identical (defined) token type. -/
def inHRun (b : Board) (r c : Nat) : Prop :=
  ∃ t : GemType, ∃ a e : Nat, a ≤ c ∧ c ≤ e ∧ e < GRID_COLS ∧ a + 2 ≤ e ∧
    ∀ j, a ≤ j → j ≤ e → (b r j).type = some t

/-- Cell `(r, c)` lies on a vertical straight run of length at least 3 of one
identical (defined) token type. -/
def inVRun (b : Board) (r c : Nat) : Prop :=
  ∃ t : GemType, ∃ a e : Nat, a ≤ r ∧ r ≤ e ∧ e < GRID_ROWS ∧ a + 2 ≤ e ∧
    ∀ j, a ≤ j → j ≤ e → (b j c).type = some t

/-- The ids contributed by one horizontal scan window at `(r, c)`: the window
fires when the three cells at `c, c+1, c+2` share a defined type, and then
marks those three cells and every cell of the rightward extension. -/
def windowAddsH (b : Board) (r c : Nat) (x : CellId) : Prop :=
  ((b r c).type ≠ none ∧ (b r (c + 1)).type = (b r c).type ∧
      (b r (c + 2)).type = (b r c).type) ∧
    (x = (b r c).id ∨ x = (b r (c + 1)).id ∨ x = (b r (c + 2)).id ∨
      ∃ j, c + 3 ≤ j ∧ j < GRID_COLS ∧
        (∀ i, c + 3 ≤ i → i ≤ j → (b r i).type = (b r c).type) ∧ x = (b r j).id)

/-- The vertical counterpart of `windowAddsH`. -/
def windowAddsV (b : Board) (c r : Nat) (x : CellId) : Prop :=
  ((b r c).type ≠ none ∧ (b (r + 1) c).type = (b r c).type ∧
      (b (r + 2) c).type = (b r c).type) ∧
    (x = (b r c).id ∨ x = (b (r + 1) c).id ∨ x = (b (r + 2) c).id ∨
      ∃ j, r + 3 ≤ j ∧ j < GRID_ROWS ∧
        (∀ i, r + 3 ≤ i → i ≤ j → (b i c).type = (b r c).type) ∧ x = (b j c).id)

/-!  ## Group classification (`classifyMatchGroup`, `src/utils/gameLogic.ts`
lines 167-191) -/

/-- `classifyMatchGroup` (`src/utils/gameLogic.ts` lines 167-191).  The source
returns an object `{ special }`; we return the `SpecialType` directly.
`new Set(group.map(c => c.row)).size` is `(group.map Cell.row).toFinset.card`. -/
def classifyMatchGroup (group : List Cell) : SpecialType :=
  if group.length < 4 then SpecialType.NONE
  else if 5 ≤ group.length then
    if (group.map Cell.row).toFinset.card = 1 ∨ (group.map Cell.col).toFinset.card = 1 then
      SpecialType.RAINBOW
    else SpecialType.AREA_BLAST
  else
    if (group.map Cell.row).toFinset.card = 1 then SpecialType.COL_BLAST
    else if (group.map Cell.col).toFinset.card = 1 then SpecialType.ROW_BLAST
    else SpecialType.NONE

/-- All cells of the group lie in one row (stated against the first cell, which
makes the predicate decidable; for nonempty groups this is the usual
"all cells share one row"). -/
def sameRow (group : List Cell) : Prop :=
  ∀ cl ∈ group, cl.row = (group.headD defaultCell).row

/-- All cells of the group lie in one column. -/
def sameCol (group : List Cell) : Prop :=
  ∀ cl ∈ group, cl.col = (group.headD defaultCell).col

instance sameRowDecidable (group : List Cell) : Decidable (sameRow group) :=
  inferInstanceAs (Decidable (∀ cl ∈ group, cl.row = (group.headD defaultCell).row))

instance sameColDecidable (group : List Cell) : Decidable (sameCol group) :=
  inferInstanceAs (Decidable (∀ cl ∈ group, cl.col = (group.headD defaultCell).col))

/-- A concrete 3-cell group (for witnesses). -/
def groupOf (ps : List (Nat × Nat)) : List Cell :=
  ps.map (fun p =>
    { id := CellId.cellId p.1 p.2 0, type := some GemType.RED,
      special := SpecialType.NONE, status := CellStatus.MATCHED,
      row := p.1, col := p.2, visualRow := p.1, visualCol := p.2 })

/-!  ## Special-token placement (`resolveBoard`, `src/App.tsx` lines 308-316) -/

/-- The special-token placement choice of `resolveBoard` (`src/App.tsx` lines
308-316): `candidate` starts as `group[0]`; when a swap anchor
(`lastSwapTarget`) is present and some group member matches its position, that
member is chosen; when no anchor is present, the middle element
`group[Math.floor(group.length / 2)]` is chosen. -/
def chooseCandidate (group : List Cell) (lastSwapTarget : Option Position) : Cell :=
  match lastSwapTarget with
  | some target =>
    match group.find? (fun cl => cl.row == target.row && cl.col == target.col) with
    | some found => found
    | none => group.getD 0 defaultCell
  | none => group.getD (group.length / 2) defaultCell

/-!  ## Gravity (`applyGravity`, `src/utils/gameLogic.ts` lines 235-286) -/

/-- The vacated-slot test of the gravity loop:
`status === 'MATCHED' || status === 'EMPTY'`. -/
def isEmptySlot (cl : Cell) : Bool :=
  cl.status == CellStatus.MATCHED || cl.status == CellStatus.EMPTY

/-- The placeholder written into a slot a token just left
(`src/utils/gameLogic.ts` lines 254-263): id `temp-r-c-<rnd>`, placeholder
type RED, status EMPTY. -/
def placeholderCell (r c x : Nat) : Cell :=
  { id := CellId.tempId r c x, type := some GemType.RED, special := SpecialType.NONE,
    status := CellStatus.EMPTY, row := r, col := c, visualRow := (r : Int),
    visualCol := (c : Int) }

/-- A freshly generated refill gem (`src/utils/gameLogic.ts` lines 270-280):
uniformly drawn type, id `new-c-<rnd>`, status DROPPING, visual row starting
`emptySlots` above the board. -/
def newGem (allowed : List GemType) (r c emptySlots x1 x2 : Nat) : Cell :=
  { id := CellId.newId c x2, type := allowed.get? (x1 % allowed.length),
    special := if allowed.get? (x1 % allowed.length) = some GemType.RAINBOW
      then SpecialType.RAINBOW else SpecialType.NONE,
    status := CellStatus.DROPPING, row := r, col := c,
    visualRow := (r : Int) - (emptySlots : Int), visualCol := (c : Int) }

/-- One bottom-up step of the gravity compaction loop at row `r` of column `c`
(`src/utils/gameLogic.ts` lines 241-266).  State:
`(board, emptySlots, random index, movesDetected)`. -/
def dropCellStep (c : Nat) (rnd : Nat → Nat) (r : Nat) :
    Board × Nat × Nat × Bool → Board × Nat × Nat × Bool
  | (b, empty, n, moves) =>
    if isEmptySlot (b r c) then
      (updateBoard b r c { b r c with status := CellStatus.EMPTY }, empty + 1, n, moves)
    else if 0 < empty then
      (updateBoard
        (updateBoard b (r + empty) c
          { b r c with
              row := r + empty, status := CellStatus.DROPPING, visualRow := (r : Int) })
        r c (placeholderCell r c (rnd n)),
        empty, n + 1, true)
    else (b, empty, n, moves)

/-- Run the compaction loop over rows `m-1, m-2, …, 0` of column `c` (the
source loop runs `r = GRID_ROWS-1 … 0`, so `m = GRID_ROWS` processes the whole
column bottom-up). -/
def dropColumnRows (c : Nat) (rnd : Nat → Nat) :
    Nat → Board × Nat × Nat × Bool → Board × Nat × Nat × Bool
  | 0, st => st
  | m + 1, st => dropColumnRows c rnd m (dropCellStep c rnd m st)

/-- One iteration of the refill loop (`src/utils/gameLogic.ts` lines 269-282):
write a fresh gem at row `r` of column `c`, consuming two random draws (type,
then id), and record that a move happened. -/
def fillStep (allowed : List GemType) (c : Nat) (rnd : Nat → Nat) (emptySlots : Nat)
    (st : Board × Nat × Bool) (r : Nat) : Board × Nat × Bool :=
  (updateBoard st.1 r c (newGem allowed r c emptySlots (rnd st.2.1) (rnd (st.2.1 + 1))),
    st.2.1 + 2, true)

/-- The refill loop (`src/utils/gameLogic.ts` lines 269-282): fill rows
`0 … emptySlots-1` of column `c` with fresh gems. -/
def fillColumn (allowed : List GemType) (c : Nat) (rnd : Nat → Nat) (emptySlots : Nat)
    (st : Board × Nat × Bool) : Board × Nat × Bool :=
  (List.range emptySlots).foldl (fillStep allowed c rnd emptySlots) st

/-- Process one column of `applyGravity`: compaction, then refill. -/
def processColumn (allowed : List GemType) (rnd : Nat → Nat)
    (st : Board × Nat × Bool) (c : Nat) : Board × Nat × Bool :=
  match dropColumnRows c rnd GRID_ROWS (st.1, 0, st.2.1, st.2.2) with
  | (b1, empty, n1, moves1) => fillColumn allowed c rnd empty (b1, n1, moves1)

/-- `applyGravity` (`src/utils/gameLogic.ts` lines 235-286), returning the new
board and the `movesDetected` flag.  The deep copy the source makes first is
implicit in the functional embedding. -/
def applyGravity (b : Board) (allowed : List GemType) (rnd : Nat → Nat) : Board × Bool :=
  match (List.range GRID_COLS).foldl (processColumn allowed rnd) (b, 0, false) with
  | (b', _, moves) => (b', moves)

/-- The rows `m … GRID_ROWS-1` of column `c` holding an occupied (surviving)
cell, top to bottom. -/
def survivorRows (b : Board) (c m : Nat) : List Nat :=
  (List.range' m (GRID_ROWS - m)).filter (fun r => !(isEmptySlot (b r c)))

/-- The number of vacated slots in rows `m … GRID_ROWS-1` of column `c`. -/
def emptyCount (b : Board) (c m : Nat) : Nat :=
  ((List.range' m (GRID_ROWS - m)).filter (fun r => isEmptySlot (b r c))).length

/-- How gravity rewrites a surviving cell that falls from row `oldr` to row
`newr`: unchanged when it does not move, otherwise repositioned with status
DROPPING and its visual row left at the old row. -/
def adjustCell (cl : Cell) (oldr newr : Nat) : Cell :=
  if oldr = newr then cl
  else { cl with row := newr, status := CellStatus.DROPPING, visualRow := (oldr : Int) }

/-- Loop invariant of the gravity compaction pass on column `c` of the board
`b0` that entered `processColumn` with `movesDetected = moves0`: the state
`st = (board, emptySlots, rndIdx, movesDetected)` after the rows
`GRID_ROWS-1 … m` have been processed.  The occupied cells of rows `≥ m` sit,
in their original top-to-bottom order, in the bottommost rows, adjusted by
`adjustCell`; the rows between `m` and them are EMPTY placeholders. -/
structure DropInv (b0 : Board) (c : Nat) (moves0 : Bool) (m : Nat)
    (st : Board × Nat × Nat × Bool) : Prop where
  emptyEq : st.2.1 = emptyCount b0 c m
  otherCols : ∀ r c', c' ≠ c → st.1 r c' = b0 r c'
  upRows : ∀ r, r < m → st.1 r c = b0 r c
  lowRows : ∀ r, GRID_ROWS ≤ r → st.1 r c = b0 r c
  survivors : ∀ i, i < (survivorRows b0 c m).length →
    st.1 (GRID_ROWS - (survivorRows b0 c m).length + i) c =
      adjustCell (b0 ((survivorRows b0 c m).getD i 0) c)
        ((survivorRows b0 c m).getD i 0)
        (GRID_ROWS - (survivorRows b0 c m).length + i)
  emptyRegion : ∀ r, m ≤ r → r < GRID_ROWS - (survivorRows b0 c m).length →
    (st.1 r c).status = CellStatus.EMPTY
  movesOut : st.2.2.2 = true → moves0 = true ∨ 0 < emptyCount b0 c m
  movesIn : moves0 = true → st.2.2.2 = true

/-- What `processColumn` does to column `c`: the column's occupied cells end,
in order, in the bottommost rows (adjusted by `adjustCell`), every row above
them holds a fresh refill gem, and rows outside the grid are untouched. -/
structure ColSpec (b0 : Board) (allowed : List GemType) (c : Nat) (bOut : Board) : Prop where
  lowRows : ∀ r, GRID_ROWS ≤ r → bOut r c = b0 r c
  survivors : ∀ i, i < (survivorRows b0 c 0).length →
    bOut (GRID_ROWS - (survivorRows b0 c 0).length + i) c =
      adjustCell (b0 ((survivorRows b0 c 0).getD i 0) c)
        ((survivorRows b0 c 0).getD i 0)
        (GRID_ROWS - (survivorRows b0 c 0).length + i)
  fresh : ∀ r, r < GRID_ROWS - (survivorRows b0 c 0).length →
    ∃ x1 x2, bOut r c = newGem allowed r c
      (GRID_ROWS - (survivorRows b0 c 0).length) x1 x2

/-- A concrete board for witnesses: all BLUE and IDLE except one MATCHED cell
at (3, 0). -/
def gravityDemoBoard : Board := fun r c =>
  { id := CellId.cellId r c 0, type := some GemType.BLUE, special := SpecialType.NONE,
    status := if r = 3 ∧ c = 0 then CellStatus.MATCHED else CellStatus.IDLE,
    row := r, col := c, visualRow := (r : Int), visualCol := (c : Int) }

/-!  ## Group clustering (`getConnectedGroups`, `src/utils/gameLogic.ts`
lines 124-164) -/

/-- The four 4-directional neighbor coordinates of a cell
(`src/utils/gameLogic.ts` lines 141-146), as integers because `row - 1` can be
negative in JavaScript (the bounds check then discards it). -/
def neighborCoords (cur : Cell) : List (Int × Int) :=
  [((cur.row : Int) - 1, (cur.col : Int)), ((cur.row : Int) + 1, (cur.col : Int)),
    ((cur.row : Int), (cur.col : Int) - 1), ((cur.row : Int), (cur.col : Int) + 1)]

/-- Process one neighbor candidate (`src/utils/gameLogic.ts` lines 148-157):
if in bounds, in the matched set, unvisited, and of the current cell's type,
enqueue it and mark it visited. -/
def pushNeighbors (b : Board) (matchedIds : Finset CellId) (cur : Cell) :
    List Cell × Finset CellId → Int × Int → List Cell × Finset CellId
  | (q, v), nbr =>
    if 0 ≤ nbr.1 ∧ nbr.1 < (GRID_ROWS : Int) ∧ 0 ≤ nbr.2 ∧ nbr.2 < (GRID_COLS : Int) then
      if (b nbr.1.toNat nbr.2.toNat).id ∈ matchedIds ∧
          (b nbr.1.toNat nbr.2.toNat).id ∉ v ∧
          (b nbr.1.toNat nbr.2.toNat).type = cur.type then
        (q ++ [b nbr.1.toNat nbr.2.toNat], insert (b nbr.1.toNat nbr.2.toNat).id v)
      else (q, v)
    else (q, v)

/-- The BFS `while (queue.length > 0)` loop (`src/utils/gameLogic.ts` lines
137-158), with an explicit iteration budget; `bfsFuel` below always exceeds
the possible number of iterations (each iteration pops one queue entry, and an
entry is enqueued only together with a fresh visited board id), so the guard,
not the budget, ends the loop. -/
def bfsAux (b : Board) (matchedIds : Finset CellId) :
    Nat → List Cell → Finset CellId → List Cell → List Cell × Finset CellId
  | 0, _, visited, group => (group, visited)
  | _ + 1, [], visited, group => (group, visited)
  | fuel + 1, current :: rest, visited, group =>
    match (neighborCoords current).foldl (pushNeighbors b matchedIds current)
        (rest, visited) with
    | (queue2, visited2) => bfsAux b matchedIds fuel queue2 visited2 (group ++ [current])

/-- Iteration budget for `bfsAux`: strictly more than five times the number of
board cells plus the seed. -/
def bfsFuel : Nat := 5 * (GRID_ROWS * GRID_COLS) + 2

/-- One step of the seeding scan of `getConnectedGroups`
(`src/utils/gameLogic.ts` lines 128-161): start a BFS at position `p` if the
cell there is matched and unvisited, and append the finished group. -/
def seedStep (b : Board) (matchedIds : Finset CellId)
    (st : Finset CellId × List (List Cell)) (p : Nat × Nat) :
    Finset CellId × List (List Cell) :=
  if (b p.1 p.2).id ∈ matchedIds ∧ (b p.1 p.2).id ∉ st.1 then
    match bfsAux b matchedIds bfsFuel [b p.1 p.2] (insert (b p.1 p.2).id st.1) [] with
    | (group, visited2) => (visited2, st.2 ++ [group])
  else st

/-- `getConnectedGroups` (`src/utils/gameLogic.ts` lines 124-164): a row-major
scan seeding a same-type 4-directional BFS at each matched, unvisited cell. -/
def getConnectedGroups (b : Board) (matchedIds : Finset CellId) : List (List Cell) :=
  (allPositions.foldl (seedStep b matchedIds)
    ((∅ : Finset CellId), ([] : List (List Cell)))).2

/-- Invariant of the seeding scan: the visited set is exactly the set of ids
of the groups found so far, those ids are pairwise distinct, and every group
consists of matched cells of one token type. -/
structure GroupsInv (matchedIds : Finset CellId)
    (st : Finset CellId × List (List Cell)) : Prop where
  visitedEq : st.1 = (st.2.flatMap (fun g => g.map Cell.id)).toFinset
  nodup : (st.2.flatMap (fun g => g.map Cell.id)).Nodup
  matched : ∀ g ∈ st.2, ∀ cl ∈ g, cl.id ∈ matchedIds
  uniform : ∀ g ∈ st.2, ∀ x ∈ g, ∀ y ∈ g, x.type = y.type

/-- The concrete scenario board of the spec's scoring example: a horizontal
RED run of exactly 4 in row 0, over a 3-periodic diagonal striping that admits
no other run. -/
def c8Board : Board := fun r c =>
  { id := CellId.cellId r c 0,
    type := some (if r = 0 ∧ c < 4 then GemType.RED
      else if (r + c) % 3 = 0 then GemType.BLUE
      else if (r + c) % 3 = 1 then GemType.GREEN else GemType.YELLOW),
    special := SpecialType.NONE, status := CellStatus.IDLE,
    row := r, col := c, visualRow := (r : Int), visualCol := (c : Int) }

/-!  ## Initial board construction (`createInitialBoard`,
`src/utils/gameLogic.ts` lines 51-79) -/

/-- The rejection condition of the `do … while` sampling loop of
`createInitialBoard` (`src/utils/gameLogic.ts` lines 60-63): the draw `t`
would complete a 3-run immediately to its left (within the row built so far)
or above (within the rows built so far).  JavaScript `===` on
possibly-`undefined` types is `Option` equality. -/
def rejectInitialDraw (rows : List (List Cell)) (row : List Cell) (r c : Nat)
    (t : Option GemType) : Bool :=
  (decide (2 ≤ c) && ((row.getD (c - 1) defaultCell).type == t) &&
      ((row.getD (c - 2) defaultCell).type == t)) ||
  (decide (2 ≤ r) && (((rows.getD (r - 1) []).getD c defaultCell).type == t) &&
      (((rows.getD (r - 2) []).getD c defaultCell).type == t))

/-- The `do { draw } while (reject)` loop (`src/utils/gameLogic.ts` lines
58-63), with an attempt budget: `none` means the loop did not leave within
`fuel` attempts (the source would still be looping).  Each attempt consumes
one random draw; `allowedTypes[Math.floor(Math.random() * length)]` is
`allowed.get? (rnd n % allowed.length)` (an out-of-range index is
`undefined`, i.e. `none`). -/
def drawAttempts (allowed : List GemType) (rnd : Nat → Nat)
    (reject : Option GemType → Bool) : Nat → Nat → Option (Option GemType × Nat)
  | 0, _ => none
  | fuel + 1, n =>
    if reject (allowed.get? (rnd n % allowed.length)) then
      drawAttempts allowed rnd reject fuel (n + 1)
    else some (allowed.get? (rnd n % allowed.length), n + 1)

/-- The cell literal pushed by `createInitialBoard`
(`src/utils/gameLogic.ts` lines 65-74); the id consumes one more random
draw `x`. -/
def mkInitCell (r c : Nat) (t : Option GemType) (x : Nat) : Cell :=
  { id := CellId.cellId r c x, type := t,
    special := if t = some GemType.RAINBOW then SpecialType.RAINBOW
      else SpecialType.NONE,
    status := CellStatus.IDLE, row := r, col := c,
    visualRow := (r : Int), visualCol := (c : Int) }

/-- The inner column loop of `createInitialBoard`: build the remaining `m`
cells of row `r` starting at column `c`, threading the random index. -/
def buildRowAux (allowed : List GemType) (rnd : Nat → Nat) (fuel : Nat)
    (rows : List (List Cell)) (r : Nat) :
    Nat → Nat → List Cell → Nat → Option (List Cell × Nat)
  | 0, _, row, n => some (row, n)
  | m + 1, c, row, n =>
    match drawAttempts allowed rnd (fun t => rejectInitialDraw rows row r c t) fuel n with
    | none => none
    | some (t, n2) =>
      buildRowAux allowed rnd fuel rows r m (c + 1)
        (row ++ [mkInitCell r c t (rnd n2)]) (n2 + 1)

/-- The outer row loop of `createInitialBoard`: build the remaining `m` rows
(the current row index is the number of rows built). -/
def buildBoardAux (allowed : List GemType) (rnd : Nat → Nat) (fuel : Nat) :
    Nat → List (List Cell) → Nat → Option (List (List Cell) × Nat)
  | 0, rows, n => some (rows, n)
  | m + 1, rows, n =>
    match buildRowAux allowed rnd fuel rows rows.length GRID_COLS 0 [] n with
    | none => none
    | some (row, n2) => buildBoardAux allowed rnd fuel m (rows ++ [row]) n2

/-- `createInitialBoard` (`src/utils/gameLogic.ts` lines 51-79).  Returns
`none` when some sampling loop fails to leave within `fuel` attempts — the
source would still be looping at that point, so every *returned* board of the
source is `some` here for a large enough budget. -/
def createInitialBoard (allowed : List GemType) (rnd : Nat → Nat) (fuel : Nat) :
    Option (List (List Cell)) :=
  (buildBoardAux allowed rnd fuel GRID_ROWS [] 0).map (fun res => res.1)

/-- View a row-list board as a `Board` function. -/
def toBoard (rows : List (List Cell)) : Board :=
  fun r c => (rows.getD r []).getD c defaultCell

/-- A returned initial board has no pre-existing matches (vacuously true when
the construction did not return). -/
def noPreexistingMatches : Option (List (List Cell)) → Prop
  | none => True
  | some rows => findMatches (toBoard rows) = ∅

/-!  ## Scoring (`resolveBoard`, `src/App.tsx` lines 272-296)

The scoring constants of the source are the float literals `0.5`, `0.1`,
`1.5`, `20` and `3`; at the inputs of the verified scenario every
intermediate product is exactly representable in binary64, so modelling the
arithmetic in `ℚ` is exact. -/

/-- `levelBaseMultiplier = 1 + (currentLevel - 1) * 0.5`
(`src/App.tsx` line 274). -/
def levelBaseMultiplier (level : Nat) : ℚ :=
  1 + ((level : ℚ) - 1) * (1 / 2)

/-- `basePoints = 20` (`src/App.tsx` line 275). -/
def basePoints : ℚ := 20

/-- `comboMultiplier = 1 + currentCombo * (0.5 + (currentLevel - 1) * 0.1)`
(`src/App.tsx` lines 278-279). -/
def comboMultiplier (combo level : Nat) : ℚ :=
  1 + (combo : ℚ) * (1 / 2 + ((level : ℚ) - 1) * (1 / 10))

/-- The size multiplier of `resolveBoard` (`src/App.tsx` lines 287-289):
`1`, overwritten by `1.5` when `size === 4`, overwritten by `3` when
`size >= 5`. -/
def sizeMultiplier (size : Nat) : ℚ :=
  if 5 ≤ size then 3 else if size = 4 then 3 / 2 else 1

/-- `groupScore = Math.floor(size * basePoints * sizeMultiplier *
comboMultiplier * levelBaseMultiplier)` (`src/App.tsx` line 292). -/
def groupScore (size combo level : Nat) : Int :=
  ⌊(size : ℚ) * basePoints * sizeMultiplier size *
    comboMultiplier combo level * levelBaseMultiplier level⌋

/-!  ## Swapping, the double-wildcard combo, and match expansion
(`handleSwap`, `src/App.tsx` lines 408-509; `resolveBoard`, lines 217-258;
`getSpecialBlastTargets`, `src/utils/gameLogic.ts` lines 208-232) -/

/-- The optimistic swap of `handleSwap` (`src/App.tsx` lines 414-420): the
two cells exchange places, each taking the destination's logical and visual
coordinates and status `SWAPPING`.  Both writes use the cells read before
either write, as in the source. -/
def swapCells (b : Board) (p1 p2 : Position) : Board :=
  updateBoard
    (updateBoard b p1.row p1.col
      { b p2.row p2.col with
          row := p1.row, col := p1.col, visualRow := (p1.row : Int),
          visualCol := (p1.col : Int), status := CellStatus.SWAPPING })
    p2.row p2.col
    { b p1.row p1.col with
        row := p2.row, col := p2.col, visualRow := (p2.row : Int),
        visualCol := (p2.col : Int), status := CellStatus.SWAPPING }

/-- Case A of the special-combo branch of `handleSwap` (`src/App.tsx` lines
439-441): when the two swapped cells are both RAINBOW specials, every cell
of the (swapped) board gets status `MATCHED` before `resolveBoard` runs. -/
def nukeBoard (b : Board) : Board :=
  fun r c => { b r c with status := CellStatus.MATCHED }

/-- The ids collected by the `forEach` of `resolveBoard` (`src/App.tsx`
lines 224-226): ids of the cells already holding status `MATCHED`. -/
def preMarkedIds (b : Board) : Finset CellId :=
  allPositions.foldl
    (fun acc p => if (b p.1 p.2).status = CellStatus.MATCHED
      then insert (b p.1 p.2).id acc else acc) ∅

/-- The matched-id set of `resolveBoard` before expansion (`src/App.tsx`
lines 221-226): the natural matches plus the pre-marked cells. -/
def initialMatchedIds (b : Board) : Finset CellId :=
  findMatches b ∪ preMarkedIds b

/-- The id-lookup loop of `resolveBoard` (`src/App.tsx` lines 237-240): scan
the whole grid in row-major order and remember the last cell whose id
matches (`undefined`, i.e. `none`, when no cell matches). -/
def lookupCell (b : Board) (x : CellId) : Option Cell :=
  allPositions.foldl
    (fun acc p => if (b p.1 p.2).id = x then some (b p.1 p.2) else acc) none

/-- The 3×3 area of an AREA_BLAST (`src/utils/gameLogic.ts` lines 216-222):
signed coordinates `row-1 … row+1` × `col-1 … col+1`, clipped to the grid. -/
def areaCells (b : Board) (row col : Nat) : List Cell :=
  ([(row : Int) - 1, (row : Int), (row : Int) + 1]).flatMap (fun r =>
    ([(col : Int) - 1, (col : Int), (col : Int) + 1]).filterMap (fun c =>
      if 0 ≤ r ∧ r < (GRID_ROWS : Int) ∧ 0 ≤ c ∧ c < (GRID_COLS : Int) then
        some (b r.toNat c.toNat)
      else none))

/-- `getSpecialBlastTargets` (`src/utils/gameLogic.ts` lines 208-232),
threading the random index: the RAINBOW fallback makes five draws of two
`Math.random()` calls each (`Math.floor(Math.random() * GRID) = rnd i % 8`),
so it advances the index by 10. -/
def getSpecialBlastTargets (b : Board) (cell : Cell) (rnd : Nat → Nat)
    (n : Nat) : List Cell × Nat :=
  if cell.special = SpecialType.ROW_BLAST then
    ((List.range GRID_COLS).map (fun c => b cell.row c), n)
  else if cell.special = SpecialType.COL_BLAST then
    ((List.range GRID_ROWS).map (fun r => b r cell.col), n)
  else if cell.special = SpecialType.AREA_BLAST then
    (areaCells b cell.row cell.col, n)
  else if cell.special = SpecialType.RAINBOW then
    ((List.range 5).map (fun i =>
      b (rnd (n + 2 * i) % GRID_ROWS) (rnd (n + 2 * i + 1) % GRID_COLS)),
      n + 10)
  else ([], n)

/-- One `targets.forEach` pass of `resolveBoard` (`src/App.tsx` lines
246-254): each target whose id is not yet matched is added to the matched
set and appended to the queue. -/
def pushTargets (targets : List Cell) (matched : Finset CellId) :
    Finset CellId × List CellId :=
  targets.foldl
    (fun acc t => if t.id ∈ acc.1 then acc
      else (insert t.id acc.1, acc.2 ++ [t.id])) (matched, [])

/-- The chain-reaction `while (queue.length > 0)` loop of `resolveBoard`
(`src/App.tsx` lines 234-258), with an explicit iteration budget: pop an id,
look its cell up, and when the cell is special and not yet processed, push
its blast targets.  The budget only truncates the loop; the theorems below
hold for every budget. -/
def expandMatches (b : Board) (rnd : Nat → Nat) :
    Nat → List CellId → Finset CellId → Finset CellId → Nat → Finset CellId
  | 0, _, matched, _, _ => matched
  | _ + 1, [], matched, _, _ => matched
  | fuel + 1, x :: rest, matched, processed, n =>
    match lookupCell b x with
    | none => expandMatches b rnd fuel rest matched processed n
    | some cell =>
      if cell.special ≠ SpecialType.NONE ∧ cell.id ∉ processed then
        expandMatches b rnd fuel
          (rest ++ (pushTargets (getSpecialBlastTargets b cell rnd n).1 matched).2)
          (pushTargets (getSpecialBlastTargets b cell rnd n).1 matched).1
          (insert cell.id processed)
          (getSpecialBlastTargets b cell rnd n).2
      else expandMatches b rnd fuel rest matched processed n

/-- `Array.from(matchedIds)` (`src/App.tsx` line 231): an enumeration of the
initial matched set as the starting queue.  A JavaScript `Set` iterates in
insertion order; here the ids are enumerated in row-major board order (every
initially matched id is the id of some board cell), which enumerates the
same elements. -/
def initialQueue (b : Board) : List CellId :=
  (allPositions.map (fun p => (b p.1 p.2).id)).filter
    (fun x => decide (x ∈ initialMatchedIds b))

/-- The matched-id set at the end of the expansion loop of `resolveBoard`
(`src/App.tsx` lines 221-258). -/
def resolutionMatchedSet (b : Board) (rnd : Nat → Nat) (fuel : Nat) :
    Finset CellId :=
  expandMatches b rnd fuel (initialQueue b) (initialMatchedIds b) ∅ 0

/-- Positional consistency of the data model: every cell's logical
`row`/`col` fields are its grid coordinates (`src/types.ts` calls them the
logical position).  `resolveBoard` indexes `board[cell.row][cell.col]`
through these fields, so this is the well-formedness assumption of the
resolution pass; every board the program builds satisfies it. -/
def consistentPositions (b : Board) : Prop :=
  ∀ p ∈ allPositions, (b p.1 p.2).row = p.1 ∧ (b p.1 p.2).col = p.2

instance decConsistentPositions (b : Board) : Decidable (consistentPositions b) :=
  inferInstanceAs (Decidable (∀ p ∈ allPositions,
    (b p.1 p.2).row = p.1 ∧ (b p.1 p.2).col = p.2))

/-- Distinctness of the 64 cell ids: the program generates a fresh random
suffix per cell and uses ids as `Set`/`Map` keys. -/
def idsInjective (b : Board) : Prop :=
  ∀ p ∈ allPositions, ∀ q ∈ allPositions,
    (b p.1 p.2).id = (b q.1 q.2).id → p = q

instance decIdsInjective (b : Board) : Decidable (idsInjective b) :=
  inferInstanceAs (Decidable (∀ p ∈ allPositions, ∀ q ∈ allPositions,
    (b p.1 p.2).id = (b q.1 q.2).id → p = q))

/-- The position a cell of the swapped board came from: the two swap
positions exchange, everything else is untouched. -/
def swapSrc (p1 p2 : Position) (p : Nat × Nat) : Nat × Nat :=
  if p.1 = p2.row ∧ p.2 = p2.col then (p1.row, p1.col)
  else if p.1 = p1.row ∧ p.2 = p1.col then (p2.row, p2.col)
  else p

/-- Grid adjacency of two positions (the swap gesture's precondition). -/
def adjacentPos (p1 p2 : Position) : Prop :=
  (p1.row = p2.row ∧ (p1.col + 1 = p2.col ∨ p2.col + 1 = p1.col)) ∨
  (p1.col = p2.col ∧ (p1.row + 1 = p2.row ∨ p2.row + 1 = p1.row))

instance decAdjacentPos (p1 p2 : Position) : Decidable (adjacentPos p1 p2) :=
  inferInstanceAs (Decidable (_ ∨ _))

/-- The concrete board of the double-wildcard scenario: two adjacent RAINBOW
specials at (0,0) and (0,1) over an otherwise plain board with
position-encoding ids. -/
def c9Board : Board := fun r c =>
  { id := CellId.cellId r c 0,
    type := some (if (r + c) % 2 = 0 then GemType.RED else GemType.BLUE),
    special := if r = 0 ∧ c ≤ 1 then SpecialType.RAINBOW else SpecialType.NONE,
    status := CellStatus.IDLE,
    row := r, col := c, visualRow := (r : Int), visualCol := (c : Int) }

/- ================================================================
   THEOREMS
   ================================================================ -/

/-- Generic membership characterization of a `foldl` that accumulates a
`Finset`, given a pointwise characterization of the step function. -/
theorem foldl_finset_mem {β : Type} (f : Finset CellId → β → Finset CellId)
    (A : β → CellId → Prop)
    (hf : ∀ acc c x, x ∈ f acc c ↔ x ∈ acc ∨ A c x) :
    ∀ (l : List β) (acc : Finset CellId) (x : CellId),
      x ∈ l.foldl f acc ↔ x ∈ acc ∨ ∃ c ∈ l, A c x := by
  intro l
  induction l with
  | nil => intro acc x; simp
  | cons c l ih =>
    intro acc x
    rw [List.foldl_cons, ih, hf]
    simp only [List.mem_cons]
    constructor
    · rintro ((h | h) | ⟨c', hc', h⟩)
      · exact Or.inl h
      · exact Or.inr ⟨c, Or.inl rfl, h⟩
      · exact Or.inr ⟨c', Or.inr hc', h⟩
    · rintro (h | ⟨c', (rfl | hc'), h⟩)
      · exact Or.inl (Or.inl h)
      · exact Or.inl (Or.inr h)
      · exact Or.inr ⟨c', hc', h⟩

/-- Membership in the horizontal extension loop: the result adds exactly the
ids of the cells in the maximal same-type stretch starting at `k`, provided the
iteration budget `n` covers the remaining columns. -/
theorem extendRunH_mem (b : Board) (r : Nat) (t : Option GemType) :
    ∀ (n k : Nat) (acc : Finset CellId) (x : CellId), GRID_COLS - k ≤ n →
      (x ∈ extendRunH b r t n k acc ↔ x ∈ acc ∨
        ∃ j, k ≤ j ∧ j < GRID_COLS ∧ (∀ i, k ≤ i → i ≤ j → (b r i).type = t) ∧
          x = (b r j).id) := by
  intro n
  induction n with
  | zero =>
    intro k acc x hn
    have hk : GRID_COLS ≤ k := by omega
    simp only [extendRunH]
    constructor
    · intro h; exact Or.inl h
    · rintro (h | ⟨j, hkj, hj, _, _⟩)
      · exact h
      · omega
  | succ n ih =>
    intro k acc x hn
    simp only [extendRunH]
    by_cases hg : k < GRID_COLS ∧ (b r k).type = t
    · rw [if_pos hg, ih (k + 1) (insert (b r k).id acc) x (by omega)]
      simp only [Finset.mem_insert]
      constructor
      · rintro ((rfl | h) | ⟨j, hkj, hj, hall, rfl⟩)
        · exact Or.inr ⟨k, le_refl k, hg.1, fun i h1 h2 => by
            have : i = k := by omega
            subst this; exact hg.2, rfl⟩
        · exact Or.inl h
        · refine Or.inr ⟨j, by omega, hj, fun i h1 h2 => ?_, rfl⟩
          rcases Nat.eq_or_lt_of_le h1 with h | h
          · subst h; exact hg.2
          · exact hall i (by omega) h2
      · rintro (h | ⟨j, hkj, hj, hall, rfl⟩)
        · exact Or.inl (Or.inr h)
        · rcases Nat.eq_or_lt_of_le hkj with h | h
          · subst h; exact Or.inl (Or.inl rfl)
          · exact Or.inr ⟨j, by omega, hj, fun i h1 h2 => hall i (by omega) h2, rfl⟩
    · rw [if_neg hg]
      constructor
      · intro h; exact Or.inl h
      · rintro (h | ⟨j, hkj, hj, hall, rfl⟩)
        · exact h
        · exact absurd ⟨by omega, hall k (le_refl k) hkj⟩ hg

/-- Membership in the vertical extension loop. -/
theorem extendRunV_mem (b : Board) (c : Nat) (t : Option GemType) :
    ∀ (n k : Nat) (acc : Finset CellId) (x : CellId), GRID_ROWS - k ≤ n →
      (x ∈ extendRunV b c t n k acc ↔ x ∈ acc ∨
        ∃ j, k ≤ j ∧ j < GRID_ROWS ∧ (∀ i, k ≤ i → i ≤ j → (b i c).type = t) ∧
          x = (b j c).id) := by
  intro n
  induction n with
  | zero =>
    intro k acc x hn
    have hk : GRID_ROWS ≤ k := by omega
    simp only [extendRunV]
    constructor
    · intro h; exact Or.inl h
    · rintro (h | ⟨j, hkj, hj, _, _⟩)
      · exact h
      · omega
  | succ n ih =>
    intro k acc x hn
    simp only [extendRunV]
    by_cases hg : k < GRID_ROWS ∧ (b k c).type = t
    · rw [if_pos hg, ih (k + 1) (insert (b k c).id acc) x (by omega)]
      simp only [Finset.mem_insert]
      constructor
      · rintro ((rfl | h) | ⟨j, hkj, hj, hall, rfl⟩)
        · exact Or.inr ⟨k, le_refl k, hg.1, fun i h1 h2 => by
            have : i = k := by omega
            subst this; exact hg.2, rfl⟩
        · exact Or.inl h
        · refine Or.inr ⟨j, by omega, hj, fun i h1 h2 => ?_, rfl⟩
          rcases Nat.eq_or_lt_of_le h1 with h | h
          · subst h; exact hg.2
          · exact hall i (by omega) h2
      · rintro (h | ⟨j, hkj, hj, hall, rfl⟩)
        · exact Or.inl (Or.inr h)
        · rcases Nat.eq_or_lt_of_le hkj with h | h
          · subst h; exact Or.inl (Or.inl rfl)
          · exact Or.inr ⟨j, by omega, hj, fun i h1 h2 => hall i (by omega) h2, rfl⟩
    · rw [if_neg hg]
      constructor
      · intro h; exact Or.inl h
      · rintro (h | ⟨j, hkj, hj, hall, rfl⟩)
        · exact h
        · exact absurd ⟨by omega, hall k (le_refl k) hkj⟩ hg

/-- One horizontal window contributes exactly `windowAddsH`. -/
theorem scanWindowH_mem (b : Board) (r c : Nat) (acc : Finset CellId) (x : CellId) :
    x ∈ scanWindowH b r c acc ↔ x ∈ acc ∨ windowAddsH b r c x := by
  unfold scanWindowH windowAddsH
  by_cases hg : (b r c).type ≠ none ∧ (b r (c + 1)).type = (b r c).type ∧
      (b r (c + 2)).type = (b r c).type
  · rw [if_pos hg, extendRunH_mem b r _ GRID_COLS (c + 3) _ x (by omega)]
    simp only [Finset.mem_insert]
    constructor
    · rintro ((rfl | rfl | rfl | h) | ⟨j, h1, h2, h3, h4⟩)
      · exact Or.inr ⟨hg, Or.inr (Or.inr (Or.inl rfl))⟩
      · exact Or.inr ⟨hg, Or.inr (Or.inl rfl)⟩
      · exact Or.inr ⟨hg, Or.inl rfl⟩
      · exact Or.inl h
      · exact Or.inr ⟨hg, Or.inr (Or.inr (Or.inr ⟨j, h1, h2, h3, h4⟩))⟩
    · rintro (h | ⟨-, (rfl | rfl | rfl | ⟨j, h1, h2, h3, h4⟩)⟩)
      · exact Or.inl (Or.inr (Or.inr (Or.inr h)))
      · exact Or.inl (Or.inr (Or.inr (Or.inl rfl)))
      · exact Or.inl (Or.inr (Or.inl rfl))
      · exact Or.inl (Or.inl rfl)
      · exact Or.inr ⟨j, h1, h2, h3, h4⟩
  · rw [if_neg hg]
    constructor
    · intro h; exact Or.inl h
    · rintro (h | ⟨hg2, -⟩)
      · exact h
      · exact absurd hg2 hg

/-- One vertical window contributes exactly `windowAddsV`. -/
theorem scanWindowV_mem (b : Board) (c r : Nat) (acc : Finset CellId) (x : CellId) :
    x ∈ scanWindowV b c r acc ↔ x ∈ acc ∨ windowAddsV b c r x := by
  unfold scanWindowV windowAddsV
  by_cases hg : (b r c).type ≠ none ∧ (b (r + 1) c).type = (b r c).type ∧
      (b (r + 2) c).type = (b r c).type
  · rw [if_pos hg, extendRunV_mem b c _ GRID_ROWS (r + 3) _ x (by omega)]
    simp only [Finset.mem_insert]
    constructor
    · rintro ((rfl | rfl | rfl | h) | ⟨j, h1, h2, h3, h4⟩)
      · exact Or.inr ⟨hg, Or.inr (Or.inr (Or.inl rfl))⟩
      · exact Or.inr ⟨hg, Or.inr (Or.inl rfl)⟩
      · exact Or.inr ⟨hg, Or.inl rfl⟩
      · exact Or.inl h
      · exact Or.inr ⟨hg, Or.inr (Or.inr (Or.inr ⟨j, h1, h2, h3, h4⟩))⟩
    · rintro (h | ⟨-, (rfl | rfl | rfl | ⟨j, h1, h2, h3, h4⟩)⟩)
      · exact Or.inl (Or.inr (Or.inr (Or.inr h)))
      · exact Or.inl (Or.inr (Or.inr (Or.inl rfl)))
      · exact Or.inl (Or.inr (Or.inl rfl))
      · exact Or.inl (Or.inl rfl)
      · exact Or.inr ⟨j, h1, h2, h3, h4⟩
  · rw [if_neg hg]
    constructor
    · intro h; exact Or.inl h
    · rintro (h | ⟨hg2, -⟩)
      · exact h
      · exact absurd hg2 hg

/-- Membership in the horizontal pass of `findMatches`. -/
theorem findMatchesH_mem (b : Board) (x : CellId) :
    x ∈ findMatchesH b ↔
      ∃ r ∈ List.range GRID_ROWS, ∃ c ∈ List.range (GRID_COLS - 2), windowAddsH b r c x := by
  unfold findMatchesH
  rw [foldl_finset_mem _ (fun r x => ∃ c ∈ List.range (GRID_COLS - 2), windowAddsH b r c x)
    (fun acc r x => foldl_finset_mem _ (fun c x => windowAddsH b r c x)
      (fun acc c x => scanWindowH_mem b r c acc x) _ acc x)]
  simp

/-- Membership in the full `findMatches`: the horizontal pass plus the
vertical windows. -/
theorem findMatches_mem_raw (b : Board) (x : CellId) :
    x ∈ findMatches b ↔ x ∈ findMatchesH b ∨
      ∃ c ∈ List.range GRID_COLS, ∃ r ∈ List.range (GRID_ROWS - 2), windowAddsV b c r x := by
  unfold findMatches
  rw [foldl_finset_mem _ (fun c x => ∃ r ∈ List.range (GRID_ROWS - 2), windowAddsV b c r x)
    (fun acc c x => foldl_finset_mem _ (fun r x => windowAddsV b c r x)
      (fun acc r x => scanWindowV_mem b c r acc x) _ acc x)]

/-- The ids contributed by the horizontal windows of row `r` are exactly the
ids of the cells of that row lying on a horizontal run of length at least 3. -/
theorem windowAddsH_run (b : Board) (r : Nat) (x : CellId) :
    (∃ c ∈ List.range (GRID_COLS - 2), windowAddsH b r c x) ↔
      ∃ c, c < GRID_COLS ∧ inHRun b r c ∧ x = (b r c).id := by
  constructor
  · rintro ⟨c, hc, ⟨hne, h1, h2⟩, hx⟩
    rw [List.mem_range] at hc
    obtain ⟨t, ht⟩ := Option.ne_none_iff_exists'.mp hne
    have htriple : ∀ j, c ≤ j → j ≤ c + 2 → (b r j).type = some t := by
      intro j hj1 hj2
      have : j = c ∨ j = c + 1 ∨ j = c + 2 := by omega
      rcases this with rfl | rfl | rfl
      · exact ht
      · rw [h1, ht]
      · rw [h2, ht]
    rcases hx with rfl | rfl | rfl | ⟨j, hj1, hj2, hall, rfl⟩
    · exact ⟨c, by omega, ⟨t, c, c + 2, le_refl c, by omega, by omega, by omega, htriple⟩, rfl⟩
    · exact ⟨c + 1, by omega, ⟨t, c, c + 2, by omega, by omega, by omega, by omega, htriple⟩, rfl⟩
    · exact ⟨c + 2, by omega, ⟨t, c, c + 2, by omega, by omega, by omega, by omega, htriple⟩, rfl⟩
    · refine ⟨j, hj2, ⟨t, c, j, by omega, le_refl j, hj2, by omega, fun i hi1 hi2 => ?_⟩, rfl⟩
      by_cases hi : i ≤ c + 2
      · exact htriple i hi1 hi
      · rw [hall i (by omega) hi2, ht]
  · rintro ⟨c', hc', ⟨t, a, e, ha, hce, he, hae, hall⟩, rfl⟩
    have hta : (b r a).type = some t := hall a (le_refl a) (by omega)
    refine ⟨a, by rw [List.mem_range]; omega, ⟨⟨by rw [hta]; simp, ?_, ?_⟩, ?_⟩⟩
    · rw [hall (a + 1) (by omega) (by omega), hta]
    · rw [hall (a + 2) (by omega) (by omega), hta]
    · have : c' = a ∨ c' = a + 1 ∨ c' = a + 2 ∨ a + 3 ≤ c' := by omega
      rcases this with rfl | rfl | rfl | hc3
      · exact Or.inl rfl
      · exact Or.inr (Or.inl rfl)
      · exact Or.inr (Or.inr (Or.inl rfl))
      · refine Or.inr (Or.inr (Or.inr ⟨c', hc3, by omega, fun i hi1 hi2 => ?_, rfl⟩))
        rw [hall i (by omega) (by omega), hta]

/-- The vertical counterpart of `windowAddsH_run`. -/
theorem windowAddsV_run (b : Board) (c : Nat) (x : CellId) :
    (∃ r ∈ List.range (GRID_ROWS - 2), windowAddsV b c r x) ↔
      ∃ r, r < GRID_ROWS ∧ inVRun b r c ∧ x = (b r c).id := by
  constructor
  · rintro ⟨r, hr, ⟨hne, h1, h2⟩, hx⟩
    rw [List.mem_range] at hr
    obtain ⟨t, ht⟩ := Option.ne_none_iff_exists'.mp hne
    have htriple : ∀ j, r ≤ j → j ≤ r + 2 → (b j c).type = some t := by
      intro j hj1 hj2
      have : j = r ∨ j = r + 1 ∨ j = r + 2 := by omega
      rcases this with rfl | rfl | rfl
      · exact ht
      · rw [h1, ht]
      · rw [h2, ht]
    rcases hx with rfl | rfl | rfl | ⟨j, hj1, hj2, hall, rfl⟩
    · exact ⟨r, by omega, ⟨t, r, r + 2, le_refl r, by omega, by omega, by omega, htriple⟩, rfl⟩
    · exact ⟨r + 1, by omega, ⟨t, r, r + 2, by omega, by omega, by omega, by omega, htriple⟩, rfl⟩
    · exact ⟨r + 2, by omega, ⟨t, r, r + 2, by omega, by omega, by omega, by omega, htriple⟩, rfl⟩
    · refine ⟨j, hj2, ⟨t, r, j, by omega, le_refl j, hj2, by omega, fun i hi1 hi2 => ?_⟩, rfl⟩
      by_cases hi : i ≤ r + 2
      · exact htriple i hi1 hi
      · rw [hall i (by omega) hi2, ht]
  · rintro ⟨r', hr', ⟨t, a, e, ha, hre, he, hae, hall⟩, rfl⟩
    have hta : (b a c).type = some t := hall a (le_refl a) (by omega)
    refine ⟨a, by rw [List.mem_range]; omega, ⟨⟨by rw [hta]; simp, ?_, ?_⟩, ?_⟩⟩
    · rw [hall (a + 1) (by omega) (by omega), hta]
    · rw [hall (a + 2) (by omega) (by omega), hta]
    · have : r' = a ∨ r' = a + 1 ∨ r' = a + 2 ∨ a + 3 ≤ r' := by omega
      rcases this with rfl | rfl | rfl | hr3
      · exact Or.inl rfl
      · exact Or.inr (Or.inl rfl)
      · exact Or.inr (Or.inr (Or.inl rfl))
      · refine Or.inr (Or.inr (Or.inr ⟨r', hr3, by omega, fun i hi1 hi2 => ?_, rfl⟩))
        rw [hall i (by omega) (by omega), hta]

/-- Full membership characterization of `findMatches`: an id is returned
exactly when it is the id of a cell lying on some horizontal or vertical
straight run of length at least 3 of one identical token type. -/
theorem findMatches_mem_iff (b : Board) (x : CellId) :
    x ∈ findMatches b ↔
      ∃ r c, r < GRID_ROWS ∧ c < GRID_COLS ∧ (inHRun b r c ∨ inVRun b r c) ∧
        x = (b r c).id := by
  rw [findMatches_mem_raw, findMatchesH_mem]
  constructor
  · rintro (⟨r, hr, hw⟩ | ⟨c, hc, hw⟩)
    · obtain ⟨c, hc, hrun, hx⟩ := (windowAddsH_run b r x).mp hw
      exact ⟨r, c, List.mem_range.mp hr, hc, Or.inl hrun, hx⟩
    · obtain ⟨r, hr, hrun, hx⟩ := (windowAddsV_run b c x).mp hw
      exact ⟨r, c, hr, List.mem_range.mp hc, Or.inr hrun, hx⟩
  · rintro ⟨r, c, hr, hc, hrun | hrun, hx⟩
    · exact Or.inl ⟨r, List.mem_range.mpr hr, (windowAddsH_run b r x).mpr ⟨c, hc, hrun, hx⟩⟩
    · exact Or.inr ⟨c, List.mem_range.mpr hc, (windowAddsV_run b c x).mpr ⟨r, hr, hrun, hx⟩⟩

/-- C1.  For every board, `findMatches` returns exactly the set of identifiers
of cells that lie in some horizontal or vertical straight run of 3 or more
cells of identical token type: every cell of every such run (including cells of
runs longer than 3) is in the returned set, and no cell outside any such run is
in it. -/
theorem claim1_findMatches_exact (b : Board) (x : CellId) :
    x ∈ findMatches b ↔
      ∃ r c, r < GRID_ROWS ∧ c < GRID_COLS ∧ (inHRun b r c ∨ inVRun b r c) ∧
        x = (b r c).id :=
  findMatches_mem_iff b x

/-- For a nonempty group, the row-set having exactly one element is the same as
all cells sharing one row. -/
theorem sameRow_iff_card (group : List Cell) (h : group ≠ []) :
    (group.map Cell.row).toFinset.card = 1 ↔ sameRow group := by
  rw [Finset.card_eq_one]
  constructor
  · rintro ⟨a, ha⟩
    intro cl hcl
    have h1 : cl.row ∈ (group.map Cell.row).toFinset := by
      rw [List.mem_toFinset]; exact List.mem_map_of_mem Cell.row hcl
    have h2 : (group.headD defaultCell).row ∈ (group.map Cell.row).toFinset := by
      rw [List.mem_toFinset]
      exact List.mem_map_of_mem Cell.row (by cases group with
        | nil => exact absurd rfl h
        | cons x l => exact List.mem_cons_self x l)
    rw [ha, Finset.mem_singleton] at h1 h2
    rw [h1, h2]
  · intro hs
    refine ⟨(group.headD defaultCell).row, Finset.ext fun x => ?_⟩
    rw [List.mem_toFinset, Finset.mem_singleton, List.mem_map]
    constructor
    · rintro ⟨cl, hcl, rfl⟩; exact hs cl hcl
    · rintro rfl
      cases group with
      | nil => exact absurd rfl h
      | cons y l => exact ⟨y, List.mem_cons_self y l, (hs y (List.mem_cons_self y l)).symm⟩

/-- For a nonempty group, the column-set having exactly one element is the same
as all cells sharing one column. -/
theorem sameCol_iff_card (group : List Cell) (h : group ≠ []) :
    (group.map Cell.col).toFinset.card = 1 ↔ sameCol group := by
  rw [Finset.card_eq_one]
  constructor
  · rintro ⟨a, ha⟩
    intro cl hcl
    have h1 : cl.col ∈ (group.map Cell.col).toFinset := by
      rw [List.mem_toFinset]; exact List.mem_map_of_mem Cell.col hcl
    have h2 : (group.headD defaultCell).col ∈ (group.map Cell.col).toFinset := by
      rw [List.mem_toFinset]
      exact List.mem_map_of_mem Cell.col (by cases group with
        | nil => exact absurd rfl h
        | cons x l => exact List.mem_cons_self x l)
    rw [ha, Finset.mem_singleton] at h1 h2
    rw [h1, h2]
  · intro hs
    refine ⟨(group.headD defaultCell).col, Finset.ext fun x => ?_⟩
    rw [List.mem_toFinset, Finset.mem_singleton, List.mem_map]
    constructor
    · rintro ⟨cl, hcl, rfl⟩; exact hs cl hcl
    · rintro rfl
      cases group with
      | nil => exact absurd rfl h
      | cons y l => exact ⟨y, List.mem_cons_self y l, (hs y (List.mem_cons_self y l)).symm⟩

/-- A group with at least two cells at pairwise distinct positions cannot be
simultaneously in one row and in one column. -/
theorem not_sameRow_and_sameCol (group : List Cell)
    (hnd : (group.map (fun cl => (cl.row, cl.col))).Nodup)
    (hlen : 2 ≤ group.length) (hr : sameRow group) (hc : sameCol group) : False := by
  cases group with
  | nil => simp at hlen
  | cons a l =>
    cases l with
    | nil => simp at hlen
    | cons b l2 =>
      have hab : a.row = b.row ∧ a.col = b.col := by
        have h1 := hr a (List.mem_cons_self _ _)
        have h2 := hr b (List.mem_cons_of_mem _ (List.mem_cons_self _ _))
        have h3 := hc a (List.mem_cons_self _ _)
        have h4 := hc b (List.mem_cons_of_mem _ (List.mem_cons_self _ _))
        exact ⟨h1.trans h2.symm, h3.trans h4.symm⟩
      have hmem : (b.row, b.col) ∈ (b :: l2).map (fun cl => (cl.row, cl.col)) :=
        List.mem_map_of_mem _ (List.mem_cons_self _ _)
      rw [List.map_cons, List.nodup_cons] at hnd
      exact hnd.1 (by rw [hab.1, hab.2]; exact hmem)

/-- C3.  `classifyMatchGroup` classifies a group (of pairwise-distinct cell
positions, as flood fill produces) by size and shape: size < 4 gives NONE;
size 4 in one row gives COL_BLAST; size 4 in one column gives ROW_BLAST;
size 4 neither gives NONE without crashing; size ≥ 5 collinear gives RAINBOW;
size ≥ 5 non-collinear gives AREA_BLAST. -/
theorem claim3_classifyMatchGroup (group : List Cell)
    (hnd : (group.map (fun cl => (cl.row, cl.col))).Nodup) :
    (group.length < 4 → classifyMatchGroup group = SpecialType.NONE) ∧
    (group.length = 4 → sameRow group → classifyMatchGroup group = SpecialType.COL_BLAST) ∧
    (group.length = 4 → sameCol group → classifyMatchGroup group = SpecialType.ROW_BLAST) ∧
    (group.length = 4 → ¬ sameRow group → ¬ sameCol group →
      classifyMatchGroup group = SpecialType.NONE) ∧
    (5 ≤ group.length → sameRow group ∨ sameCol group →
      classifyMatchGroup group = SpecialType.RAINBOW) ∧
    (5 ≤ group.length → ¬ sameRow group → ¬ sameCol group →
      classifyMatchGroup group = SpecialType.AREA_BLAST) := by
  refine ⟨?_, ?_, ?_, ?_, ?_, ?_⟩
  · intro hlen
    unfold classifyMatchGroup
    rw [if_pos hlen]
  · intro hlen hr
    have hne : group ≠ [] := by intro h; rw [h] at hlen; simp at hlen
    unfold classifyMatchGroup
    rw [if_neg (by omega), if_neg (by omega), if_pos ((sameRow_iff_card group hne).mpr hr)]
  · intro hlen hc
    have hne : group ≠ [] := by intro h; rw [h] at hlen; simp at hlen
    have hnr : ¬ sameRow group := fun hr =>
      not_sameRow_and_sameCol group hnd (by omega) hr hc
    unfold classifyMatchGroup
    rw [if_neg (by omega), if_neg (by omega),
      if_neg (fun hcard => hnr ((sameRow_iff_card group hne).mp hcard)),
      if_pos ((sameCol_iff_card group hne).mpr hc)]
  · intro hlen hnr hnc
    have hne : group ≠ [] := by intro h; rw [h] at hlen; simp at hlen
    unfold classifyMatchGroup
    rw [if_neg (by omega), if_neg (by omega),
      if_neg (fun hcard => hnr ((sameRow_iff_card group hne).mp hcard)),
      if_neg (fun hcard => hnc ((sameCol_iff_card group hne).mp hcard))]
  · intro hlen hcoll
    have hne : group ≠ [] := by intro h; rw [h] at hlen; simp at hlen
    unfold classifyMatchGroup
    rw [if_neg (by omega), if_pos hlen, if_pos ?_]
    rcases hcoll with hr | hc
    · exact Or.inl ((sameRow_iff_card group hne).mpr hr)
    · exact Or.inr ((sameCol_iff_card group hne).mpr hc)
  · intro hlen hnr hnc
    have hne : group ≠ [] := by intro h; rw [h] at hlen; simp at hlen
    unfold classifyMatchGroup
    rw [if_neg (by omega), if_pos hlen, if_neg ?_]
    rintro (hcard | hcard)
    · exact hnr ((sameRow_iff_card group hne).mp hcard)
    · exact hnc ((sameCol_iff_card group hne).mp hcard)

/-- Witness for C3 at concrete groups: a vertical 4-group is classified
ROW_BLAST, a horizontal 4-group COL_BLAST, and a 5-cell T-group AREA_BLAST. -/
theorem claim3_witness :
    classifyMatchGroup (groupOf [(0, 2), (1, 2), (2, 2), (3, 2)]) = SpecialType.ROW_BLAST ∧
    classifyMatchGroup (groupOf [(5, 0), (5, 1), (5, 2), (5, 3)]) = SpecialType.COL_BLAST ∧
    classifyMatchGroup (groupOf [(0, 0), (0, 1), (0, 2), (1, 1), (2, 1)]) =
      SpecialType.AREA_BLAST := by
  refine ⟨?_, ?_, ?_⟩
  · exact (claim3_classifyMatchGroup _ (by decide)).2.2.1 (by decide) (by decide)
  · exact (claim3_classifyMatchGroup _ (by decide)).2.1 (by decide) (by decide)
  · exact (claim3_classifyMatchGroup _ (by decide)).2.2.2.2.2 (by decide) (by decide)
      (by decide)

/-- C5, counterexample.  With an anchor supplied that is not a member of the
group, the code chooses `group[0]`, not the structural midpoint
`group[floor(size/2)]`: at this concrete horizontal 4-group and anchor (5,5)
the two differ. -/
theorem claim5_counterexample :
    (∀ cl ∈ groupOf [(0, 0), (0, 1), (0, 2), (0, 3)], ¬(cl.row = 5 ∧ cl.col = 5)) ∧
    chooseCandidate (groupOf [(0, 0), (0, 1), (0, 2), (0, 3)])
        (some { row := 5, col := 5 }) ≠
      (groupOf [(0, 0), (0, 1), (0, 2), (0, 3)]).getD
        ((groupOf [(0, 0), (0, 1), (0, 2), (0, 3)]).length / 2) defaultCell := by
  decide

/-- C5, amended.  With an anchor supplied: if the anchor's position occurs in
the group, the chosen cell is a group member at the anchor's position;
otherwise the chosen cell is the group's first element in traversal order
(`group[0]`).  The structural midpoint `group[floor(size/2)]` is chosen only
when no anchor is supplied (cascade passes). -/
theorem claim5_amended (group : List Cell) (p : Position) :
    (chooseCandidate group none = group.getD (group.length / 2) defaultCell) ∧
    ((∃ cl ∈ group, cl.row = p.row ∧ cl.col = p.col) →
      chooseCandidate group (some p) ∈ group ∧
      (chooseCandidate group (some p)).row = p.row ∧
      (chooseCandidate group (some p)).col = p.col) ∧
    ((∀ cl ∈ group, ¬(cl.row = p.row ∧ cl.col = p.col)) →
      chooseCandidate group (some p) = group.getD 0 defaultCell) := by
  refine ⟨rfl, ?_, ?_⟩
  · rintro ⟨cl, hcl, hrow, hcol⟩
    have hsome : (group.find? (fun cl => cl.row == p.row && cl.col == p.col)).isSome := by
      rw [List.find?_isSome]
      exact ⟨cl, hcl, by rw [Bool.and_eq_true, beq_iff_eq, beq_iff_eq]; exact ⟨hrow, hcol⟩⟩
    obtain ⟨found, hfound⟩ := Option.isSome_iff_exists.mp hsome
    have hmem := List.mem_of_find?_eq_some hfound
    have hpred := List.find?_some hfound
    rw [Bool.and_eq_true, beq_iff_eq, beq_iff_eq] at hpred
    simp only [chooseCandidate, hfound]
    exact ⟨hmem, hpred.1, hpred.2⟩
  · intro hnone
    have hfind : group.find? (fun cl => cl.row == p.row && cl.col == p.col) = none := by
      rw [List.find?_eq_none]
      intro cl hcl
      rw [Bool.and_eq_true, beq_iff_eq, beq_iff_eq]
      exact fun h => hnone cl hcl h
    simp only [chooseCandidate, hfind]

/-- Witness for C5 (amended) at a concrete group: anchor (0,1) is in the group
and is chosen; anchor (7,7) is not and `group[0]` is chosen; with no anchor
the midpoint is chosen. -/
theorem claim5_witness :
    (chooseCandidate (groupOf [(0, 0), (0, 1), (0, 2), (0, 3)])
        (some { row := 0, col := 1 }) ∈ groupOf [(0, 0), (0, 1), (0, 2), (0, 3)] ∧
      (chooseCandidate (groupOf [(0, 0), (0, 1), (0, 2), (0, 3)])
        (some { row := 0, col := 1 })).row = 0 ∧
      (chooseCandidate (groupOf [(0, 0), (0, 1), (0, 2), (0, 3)])
        (some { row := 0, col := 1 })).col = 1) ∧
    chooseCandidate (groupOf [(0, 0), (0, 1), (0, 2), (0, 3)])
        (some { row := 7, col := 7 }) =
      (groupOf [(0, 0), (0, 1), (0, 2), (0, 3)]).getD 0 defaultCell ∧
    chooseCandidate (groupOf [(0, 0), (0, 1), (0, 2), (0, 3)]) none =
      (groupOf [(0, 0), (0, 1), (0, 2), (0, 3)]).getD
        ((groupOf [(0, 0), (0, 1), (0, 2), (0, 3)]).length / 2) defaultCell :=
  ⟨(claim5_amended (groupOf [(0, 0), (0, 1), (0, 2), (0, 3)]) { row := 0, col := 1 }).2.1
      (by decide),
   (claim5_amended (groupOf [(0, 0), (0, 1), (0, 2), (0, 3)]) { row := 7, col := 7 }).2.2
      (by decide),
   (claim5_amended (groupOf [(0, 0), (0, 1), (0, 2), (0, 3)]) { row := 0, col := 0 }).1⟩

theorem updateBoard_same (b : Board) (r c : Nat) (cell : Cell) :
    updateBoard b r c cell r c = cell := by
  simp [updateBoard]

theorem updateBoard_ne (b : Board) (r c : Nat) (cell : Cell) (r' c' : Nat)
    (h : r' ≠ r ∨ c' ≠ c) : updateBoard b r c cell r' c' = b r' c' := by
  unfold updateBoard
  rcases h with h | h
  · rw [if_neg (fun hc => h hc.1)]
  · rw [if_neg (fun hc => h hc.2)]

theorem isEmptySlot_iff (cl : Cell) :
    isEmptySlot cl = true ↔
      cl.status = CellStatus.MATCHED ∨ cl.status = CellStatus.EMPTY := by
  simp [isEmptySlot]

theorem filter_length_split (l : List Nat) (p : Nat → Bool) :
    (l.filter p).length + (l.filter (fun a => !(p a))).length = l.length := by
  induction l with
  | nil => simp
  | cons a l ih => by_cases h : p a <;> simp [List.filter_cons, h] <;> omega

theorem survivor_empty_split (b : Board) (c m : Nat) :
    emptyCount b c m + (survivorRows b c m).length = GRID_ROWS - m := by
  unfold emptyCount survivorRows
  simpa [List.length_range'] using
    filter_length_split (List.range' m (GRID_ROWS - m)) (fun r => isEmptySlot (b r c))

theorem survivorRows_le (b : Board) (c m : Nat) :
    (survivorRows b c m).length ≤ GRID_ROWS - m := by
  have := survivor_empty_split b c m
  omega

theorem survivorRows_decomp (b : Board) (c m : Nat) (h : m < GRID_ROWS) :
    survivorRows b c m =
      (if isEmptySlot (b m c) then survivorRows b c (m + 1)
        else m :: survivorRows b c (m + 1)) ∧
    emptyCount b c m =
      (if isEmptySlot (b m c) then 1 else 0) + emptyCount b c (m + 1) := by
  have hr : GRID_ROWS - m = (GRID_ROWS - (m + 1)) + 1 := by omega
  unfold survivorRows emptyCount
  rw [hr, List.range'_succ m (GRID_ROWS - (m + 1)) 1]
  constructor
  · by_cases h2 : isEmptySlot (b m c) <;> simp [List.filter_cons, h2]
  · by_cases h2 : isEmptySlot (b m c) <;> simp [List.filter_cons, h2] <;> omega

theorem survivorRows_congr {b1 b2 : Board} (c m : Nat)
    (h : ∀ r, b1 r c = b2 r c) : survivorRows b1 c m = survivorRows b2 c m := by
  unfold survivorRows
  exact List.filter_congr (fun r _ => by rw [h r])

theorem emptyCount_congr {b1 b2 : Board} (c m : Nat)
    (h : ∀ r, b1 r c = b2 r c) : emptyCount b1 c m = emptyCount b2 c m := by
  unfold emptyCount
  rw [List.filter_congr (fun r _ => by rw [h r])]

/-- The gravity compaction loop preserves `DropInv` down to row 0. -/
theorem dropColumnRows_inv (b0 : Board) (c : Nat) (rnd : Nat → Nat) (moves0 : Bool) :
    ∀ m, m ≤ GRID_ROWS → ∀ st, DropInv b0 c moves0 m st →
      DropInv b0 c moves0 0 (dropColumnRows c rnd m st) := by
  intro m
  induction m with
  | zero => intro _ st h; exact h
  | succ m ih =>
    intro hm st hst
    simp only [dropColumnRows]
    refine ih (by omega) _ ?_
    obtain ⟨b, e, n, mv⟩ := st
    have hbm : b m c = b0 m c := hst.upRows m (by omega)
    obtain ⟨hdec, hcnt⟩ := survivorRows_decomp b0 c m (by omega)
    have hsum := survivor_empty_split b0 c (m + 1)
    have hE : e = emptyCount b0 c (m + 1) := hst.emptyEq
    by_cases hem : isEmptySlot (b0 m c)
    · -- Case A: vacated slot, counted and marked EMPTY.
      rw [if_pos hem] at hdec hcnt
      have hstep : dropCellStep c rnd m (b, e, n, mv) =
          (updateBoard b m c { b0 m c with status := CellStatus.EMPTY }, e + 1, n, mv) := by
        simp only [dropCellStep, hbm]
        rw [if_pos hem]
      rw [hstep]
      have hLle : (survivorRows b0 c (m + 1)).length ≤ GRID_ROWS - (m + 1) := by omega
      refine ⟨?_, ?_, ?_, ?_, ?_, ?_, ?_, ?_⟩
      · show e + 1 = emptyCount b0 c m
        rw [hcnt]; omega
      · intro r c' hc'
        dsimp only
        rw [updateBoard_ne _ _ _ _ _ _ (Or.inr hc')]
        exact hst.otherCols r c' hc'
      · intro r hr
        dsimp only
        rw [updateBoard_ne _ _ _ _ _ _ (Or.inl (by omega))]
        exact hst.upRows r (by omega)
      · intro r hr
        dsimp only
        rw [updateBoard_ne _ _ _ _ _ _ (Or.inl (by omega))]
        exact hst.lowRows r hr
      · intro i hi
        dsimp only
        rw [hdec] at hi ⊢
        rw [updateBoard_ne _ _ _ _ _ _ (Or.inl (by omega))]
        exact hst.survivors i hi
      · intro r h1 h2
        dsimp only
        rw [hdec] at h2
        rcases Nat.eq_or_lt_of_le h1 with rfl | hlt
        · rw [updateBoard_same]
        · rw [updateBoard_ne _ _ _ _ _ _ (Or.inl (by omega))]
          exact hst.emptyRegion r (by omega) h2
      · intro hmv
        rcases hst.movesOut hmv with h | h
        · exact Or.inl h
        · rw [hcnt]; exact Or.inr (by omega)
      · exact hst.movesIn
    · rw [if_neg hem] at hdec hcnt
      rw [Nat.zero_add] at hcnt
      by_cases hpos : 0 < e
      · -- Case B: occupied slot shifting down by `e`.
        have hstep : dropCellStep c rnd m (b, e, n, mv) =
            (updateBoard
              (updateBoard b (m + e) c
                { b0 m c with
                    row := m + e, status := CellStatus.DROPPING, visualRow := (m : Int) })
              m c (placeholderCell m c (rnd n)),
              e, n + 1, true) := by
          simp only [dropCellStep, hbm]
          rw [if_neg hem, if_pos hpos]
        rw [hstep]
        have hme : m + e = GRID_ROWS - ((survivorRows b0 c (m + 1)).length + 1) := by omega
        have hme8 : m + e < GRID_ROWS := by omega
        refine ⟨?_, ?_, ?_, ?_, ?_, ?_, ?_, ?_⟩
        · show e = emptyCount b0 c m
          rw [hcnt]; exact hE
        · intro r c' hc'
          dsimp only
          rw [updateBoard_ne _ _ _ _ _ _ (Or.inr hc'),
            updateBoard_ne _ _ _ _ _ _ (Or.inr hc')]
          exact hst.otherCols r c' hc'
        · intro r hr
          dsimp only
          rw [updateBoard_ne _ _ _ _ _ _ (Or.inl (by omega)),
            updateBoard_ne _ _ _ _ _ _ (Or.inl (by omega))]
          exact hst.upRows r (by omega)
        · intro r hr
          dsimp only
          rw [updateBoard_ne _ _ _ _ _ _ (Or.inl (by omega)),
            updateBoard_ne _ _ _ _ _ _ (Or.inl (by omega))]
          exact hst.lowRows r hr
        · intro i hi
          dsimp only
          rw [hdec] at hi ⊢
          rw [List.length_cons] at hi ⊢
          cases i with
          | zero =>
            have hpe : GRID_ROWS - ((survivorRows b0 c (m + 1)).length + 1) + 0 = m + e := by
              omega
            rw [hpe, List.getD_cons_zero]
            rw [updateBoard_ne _ _ _ _ _ _ (Or.inl (by omega)), updateBoard_same]
            unfold adjustCell
            rw [if_neg (by omega)]
          | succ i =>
            have hpe : GRID_ROWS - ((survivorRows b0 c (m + 1)).length + 1) + (i + 1) =
                GRID_ROWS - (survivorRows b0 c (m + 1)).length + i := by omega
            rw [hpe, List.getD_cons_succ]
            rw [updateBoard_ne _ _ _ _ _ _ (Or.inl (by omega)),
              updateBoard_ne _ _ _ _ _ _ (Or.inl (by omega))]
            exact hst.survivors i (by omega)
        · intro r h1 h2
          dsimp only
          rw [hdec, List.length_cons] at h2
          rcases Nat.eq_or_lt_of_le h1 with rfl | hlt
          · rw [updateBoard_same]
            rfl
          · rw [updateBoard_ne _ _ _ _ _ _ (Or.inl (by omega)),
              updateBoard_ne _ _ _ _ _ _ (Or.inl (by omega))]
            exact hst.emptyRegion r (by omega) (by omega)
        · intro _
          rw [hcnt]
          exact Or.inr (by omega)
        · intro _; rfl
      · -- Case C: occupied slot with nothing vacated below: no change.
        have he0 : e = 0 := by omega
        have hstep : dropCellStep c rnd m (b, e, n, mv) = (b, e, n, mv) := by
          simp only [dropCellStep, hbm]
          rw [if_neg hem, if_neg (by omega)]
        rw [hstep]
        have hLfull : (survivorRows b0 c (m + 1)).length = GRID_ROWS - (m + 1) := by omega
        refine ⟨?_, ?_, ?_, ?_, ?_, ?_, ?_, ?_⟩
        · show e = emptyCount b0 c m
          rw [hcnt]; exact hE
        · exact hst.otherCols
        · intro r hr
          dsimp only
          exact hst.upRows r (by omega)
        · exact hst.lowRows
        · intro i hi
          dsimp only
          rw [hdec] at hi ⊢
          rw [List.length_cons] at hi ⊢
          cases i with
          | zero =>
            have hpe : GRID_ROWS - ((survivorRows b0 c (m + 1)).length + 1) + 0 = m := by
              omega
            rw [hpe, List.getD_cons_zero, hbm]
            unfold adjustCell
            rw [if_pos rfl]
          | succ i =>
            have hpe : GRID_ROWS - ((survivorRows b0 c (m + 1)).length + 1) + (i + 1) =
                GRID_ROWS - (survivorRows b0 c (m + 1)).length + i := by omega
            rw [hpe, List.getD_cons_succ]
            exact hst.survivors i (by omega)
        · intro r h1 h2
          dsimp only
          rw [hdec, List.length_cons] at h2
          omega
        · intro hmv
          rcases hst.movesOut hmv with h | h
          · exact Or.inl h
          · rw [hcnt]; exact Or.inr h
        · exact hst.movesIn

/-- The compaction loop's initial state satisfies the invariant at
`m = GRID_ROWS`. -/
theorem dropColumnRows_base (b0 : Board) (c : Nat) (n : Nat) (moves0 : Bool) :
    DropInv b0 c moves0 GRID_ROWS (b0, 0, n, moves0) := by
  have hs : survivorRows b0 c GRID_ROWS = [] := by
    unfold survivorRows
    simp
  refine ⟨?_, ?_, ?_, ?_, ?_, ?_, ?_, ?_⟩
  · show 0 = emptyCount b0 c GRID_ROWS
    unfold emptyCount
    simp
  · intro r c' _; rfl
  · intro r _; rfl
  · intro r _; rfl
  · intro i hi
    rw [hs] at hi
    simp at hi
  · intro r h1 h2
    rw [hs] at h2
    simp at h2
    omega
  · intro h; exact Or.inl h
  · intro h; exact h

/-- The refill fold writes a fresh gem at every row of `l` (pairwise distinct),
touches nothing else, and reports a move exactly when it wrote something. -/
theorem fillFold_spec (allowed : List GemType) (c : Nat) (rnd : Nat → Nat) (K : Nat) :
    ∀ (l : List Nat), l.Nodup → ∀ (st : Board × Nat × Bool),
      (∀ r c', c' ≠ c →
        (l.foldl (fillStep allowed c rnd K) st).1 r c' = st.1 r c') ∧
      (∀ r, r ∉ l →
        (l.foldl (fillStep allowed c rnd K) st).1 r c = st.1 r c) ∧
      (∀ r ∈ l, ∃ x1 x2,
        (l.foldl (fillStep allowed c rnd K) st).1 r c = newGem allowed r c K x1 x2) ∧
      ((l.foldl (fillStep allowed c rnd K) st).2.2 = (st.2.2 || !l.isEmpty)) := by
  intro l
  induction l with
  | nil =>
    intro _ st
    exact ⟨fun r c' _ => rfl, fun r _ => rfl,
      fun r hr => absurd hr (List.not_mem_nil r), by simp⟩
  | cons a l ih =>
    intro hnd st
    have hna : a ∉ l := (List.nodup_cons.mp hnd).1
    have hl := ih (List.nodup_cons.mp hnd).2 (fillStep allowed c rnd K st a)
    rw [List.foldl_cons]
    refine ⟨?_, ?_, ?_, ?_⟩
    · intro r c' hc'
      rw [hl.1 r c' hc']
      exact updateBoard_ne _ _ _ _ _ _ (Or.inr hc')
    · intro r hr
      rw [List.mem_cons, not_or] at hr
      rw [hl.2.1 r hr.2]
      exact updateBoard_ne _ _ _ _ _ _ (Or.inl hr.1)
    · intro r hr
      rw [List.mem_cons] at hr
      rcases hr with rfl | hr
      · refine ⟨rnd st.2.1, rnd (st.2.1 + 1), ?_⟩
        rw [hl.2.1 r hna]
        exact updateBoard_same _ _ _ _
      · exact hl.2.2.1 r hr
    · rw [hl.2.2.2]
      simp [fillStep]

/-- What processing one column does: the column is rearranged per `ColSpec`,
other columns are untouched, and `movesDetected` becomes true exactly when it
already was or the column had a vacated slot. -/
theorem processColumn_spec (allowed : List GemType) (rnd : Nat → Nat)
    (st : Board × Nat × Bool) (c : Nat) :
    ColSpec st.1 allowed c (processColumn allowed rnd st c).1 ∧
    (∀ r c', c' ≠ c → (processColumn allowed rnd st c).1 r c' = st.1 r c') ∧
    ((processColumn allowed rnd st c).2.2 = true ↔
      st.2.2 = true ∨ 0 < emptyCount st.1 c 0) := by
  have hD := dropColumnRows_inv st.1 c rnd st.2.2 GRID_ROWS (le_refl _) _
    (dropColumnRows_base st.1 c st.2.1 st.2.2)
  unfold processColumn
  generalize hDd : dropColumnRows c rnd GRID_ROWS (st.1, 0, st.2.1, st.2.2) = D at hD ⊢
  obtain ⟨b1, e1, n1, mv1⟩ := D
  dsimp only at hD ⊢
  have hE : e1 = emptyCount st.1 c 0 := hD.emptyEq
  have hsum := survivor_empty_split st.1 c 0
  rw [Nat.sub_zero] at hsum
  have hfill := fillFold_spec allowed c rnd e1 (List.range e1) (List.nodup_range e1)
    (b1, n1, mv1)
  unfold fillColumn
  refine ⟨⟨?_, ?_, ?_⟩, ?_, ?_⟩
  · intro r hrow
    rw [hfill.2.1 r (by rw [List.mem_range]; omega)]
    exact hD.lowRows r hrow
  · intro i hi
    rw [hfill.2.1 _ (by rw [List.mem_range]; omega)]
    exact hD.survivors i hi
  · intro r hrow
    have hK : e1 = GRID_ROWS - (survivorRows st.1 c 0).length := by omega
    rw [← hK]
    exact hfill.2.2.1 r (by rw [List.mem_range]; omega)
  · intro r c' hc'
    rw [hfill.1 r c' hc']
    exact hD.otherCols r c' hc'
  · rw [hfill.2.2.2]
    constructor
    · intro h
      rcases Bool.or_eq_true_iff.mp h with h | h
      · exact hD.movesOut h
      · right
        rw [Bool.not_eq_true', ← Bool.not_eq_true, List.isEmpty_iff, List.range_eq_nil] at h
        omega
    · intro h
      rcases h with h | h
      · rw [hD.movesIn h]
        simp
      · have : e1 ≠ 0 := by omega
        have : ¬(List.range e1).isEmpty = true := by
          rw [List.isEmpty_iff, List.range_eq_nil]; exact this
        simp [this]

/-- Transfer a `ColSpec` along agreement of the input and output boards on
column `c`. -/
theorem colSpec_congr {b0 b0' bOut bOut' : Board} (allowed : List GemType) (c : Nat)
    (hin : ∀ r, b0' r c = b0 r c) (hout : ∀ r, bOut' r c = bOut r c)
    (h : ColSpec b0 allowed c bOut) : ColSpec b0' allowed c bOut' := by
  have hsur : survivorRows b0' c 0 = survivorRows b0 c 0 := survivorRows_congr c 0 hin
  refine ⟨?_, ?_, ?_⟩
  · intro r hrow
    rw [hout, hin]
    exact h.lowRows r hrow
  · intro i hi
    rw [hsur] at hi ⊢
    rw [hout, hin]
    exact h.survivors i hi
  · intro r hrow
    rw [hsur] at hrow ⊢
    rw [hout]
    exact h.fresh r hrow

/-- Folding `processColumn` over a duplicate-free list of columns rearranges
each listed column per `ColSpec`, touches no other column, and detects a move
exactly when some listed column had a vacated slot. -/
theorem foldColumns_spec (allowed : List GemType) (rnd : Nat → Nat) :
    ∀ (l : List Nat), l.Nodup → ∀ (st : Board × Nat × Bool),
      (∀ r c', c' ∉ l →
        (l.foldl (processColumn allowed rnd) st).1 r c' = st.1 r c') ∧
      (∀ c' ∈ l, ColSpec st.1 allowed c' (l.foldl (processColumn allowed rnd) st).1) ∧
      ((l.foldl (processColumn allowed rnd) st).2.2 = true ↔
        st.2.2 = true ∨ ∃ c' ∈ l, 0 < emptyCount st.1 c' 0) := by
  intro l
  induction l with
  | nil =>
    intro _ st
    refine ⟨fun r c' _ => rfl, fun c' hc' => absurd hc' (List.not_mem_nil c'), ?_⟩
    simp
  | cons a l ih =>
    intro hnd st
    have hna : a ∉ l := (List.nodup_cons.mp hnd).1
    have hstep := processColumn_spec allowed rnd st a
    have hih := ih (List.nodup_cons.mp hnd).2 (processColumn allowed rnd st a)
    rw [List.foldl_cons]
    refine ⟨?_, ?_, ?_⟩
    · intro r c' hc'
      rw [List.mem_cons, not_or] at hc'
      rw [hih.1 r c' hc'.2]
      exact hstep.2.1 r c' hc'.1
    · intro c' hc'
      rw [List.mem_cons] at hc'
      rcases hc' with rfl | hc'
      · exact colSpec_congr allowed c' (fun r => rfl) (fun r => hih.1 r c' hna) hstep.1
      · have hne : c' ≠ a := fun h => hna (h ▸ hc')
        exact colSpec_congr allowed c'
          (fun r => (hstep.2.1 r c' hne).symm) (fun r => rfl) (hih.2.1 c' hc')
    · rw [hih.2.2, hstep.2.2]
      constructor
      · rintro ((h | h) | ⟨c', hc', h⟩)
        · exact Or.inl h
        · exact Or.inr ⟨a, List.mem_cons_self a l, h⟩
        · have hne : c' ≠ a := fun heq => hna (heq ▸ hc')
          rw [emptyCount_congr c' 0 (fun r => hstep.2.1 r c' hne)] at h
          exact Or.inr ⟨c', List.mem_cons_of_mem a hc', h⟩
      · rintro (h | ⟨c', hc', h⟩)
        · exact Or.inl (Or.inl h)
        · rw [List.mem_cons] at hc'
          rcases hc' with rfl | hc'
          · exact Or.inl (Or.inr h)
          · have hne : c' ≠ a := fun heq => hna (heq ▸ hc')
            refine Or.inr ⟨c', hc', ?_⟩
            rw [emptyCount_congr c' 0 (fun r => hstep.2.1 r c' hne)]
            exact h

/-- Full characterization of `applyGravity`: every grid column is rearranged
per `ColSpec` relative to the input board, and `movesDetected` is true exactly
when some column contains a vacated (MATCHED or EMPTY) slot. -/
theorem applyGravity_spec (b : Board) (allowed : List GemType) (rnd : Nat → Nat) :
    (∀ c, c < GRID_COLS → ColSpec b allowed c (applyGravity b allowed rnd).1) ∧
    ((applyGravity b allowed rnd).2 = true ↔
      ∃ c, c < GRID_COLS ∧ 0 < emptyCount b c 0) := by
  have h := foldColumns_spec allowed rnd (List.range GRID_COLS)
    (List.nodup_range GRID_COLS) (b, 0, false)
  unfold applyGravity
  generalize heq : (List.range GRID_COLS).foldl (processColumn allowed rnd) (b, 0, false) = R
    at h ⊢
  obtain ⟨b', n', mv'⟩ := R
  dsimp only at h ⊢
  constructor
  · intro c hc
    exact h.2.1 c (List.mem_range.mpr hc)
  · rw [h.2.2]
    constructor
    · rintro (h | ⟨c', hc', hpos⟩)
      · exact absurd h (by simp)
      · exact ⟨c', List.mem_range.mp hc', hpos⟩
    · rintro ⟨c', hc', hpos⟩
      exact Or.inr ⟨c', List.mem_range.mpr hc', hpos⟩

/-- `adjustCell` never changes a cell's id, type or special kind, and its
status either stays or becomes DROPPING. -/
theorem adjustCell_fields (cl : Cell) (o n : Nat) :
    (adjustCell cl o n).id = cl.id ∧ (adjustCell cl o n).type = cl.type ∧
    (adjustCell cl o n).special = cl.special ∧
    ((adjustCell cl o n).status = cl.status ∨
      (adjustCell cl o n).status = CellStatus.DROPPING) := by
  unfold adjustCell
  by_cases h : o = n
  · rw [if_pos h]; exact ⟨rfl, rfl, rfl, Or.inl rfl⟩
  · rw [if_neg h]; exact ⟨rfl, rfl, rfl, Or.inr rfl⟩

theorem isEmptySlot_false_iff (cl : Cell) :
    isEmptySlot cl = false ↔
      cl.status ≠ CellStatus.MATCHED ∧ cl.status ≠ CellStatus.EMPTY := by
  simp [isEmptySlot]

theorem emptyCount_pos_iff (b : Board) (c : Nat) :
    0 < emptyCount b c 0 ↔ ∃ r, r < GRID_ROWS ∧ isEmptySlot (b r c) = true := by
  unfold emptyCount
  rw [List.length_pos_iff_exists_mem]
  constructor
  · rintro ⟨a, ha⟩
    rw [List.mem_filter] at ha
    refine ⟨a, ?_, ha.2⟩
    have := List.mem_range'_1.mp ha.1
    omega
  · rintro ⟨r, hr, hslot⟩
    exact ⟨r, List.mem_filter.mpr ⟨List.mem_range'_1.mpr (by omega), hslot⟩⟩

theorem survivorRows_getD_mem (b : Board) (c i : Nat)
    (hi : i < (survivorRows b c 0).length) :
    (survivorRows b c 0).getD i 0 ∈ survivorRows b c 0 := by
  rw [List.getD_eq_getElem _ _ hi]
  exact List.getElem_mem hi

theorem survivorRows_not_empty (b : Board) (c m ρ : Nat) (h : ρ ∈ survivorRows b c m) :
    isEmptySlot (b ρ c) = false := by
  unfold survivorRows at h
  have := (List.mem_filter.mp h).2
  simpa using this

/-- C2.  `applyGravity` conserves the occupied (surviving) cells of each
column and their relative vertical order: the `i`-th surviving cell of the
input column, counted top to bottom, reappears — same id, type and special
kind — at output row `GRID_ROWS - L + i` (where `L` is the number of
survivors), so survivors occupy the bottom `L` rows in their original order;
every row above them holds a freshly generated gem, so no surviving token is
lost, duplicated, or reordered within its column. -/
theorem claim2_applyGravity_preserves (b : Board) (allowed : List GemType)
    (rnd : Nat → Nat) (c i r : Nat) (hc : c < GRID_COLS)
    (hi : i < (survivorRows b c 0).length)
    (hr : r < GRID_ROWS - (survivorRows b c 0).length) :
    (((applyGravity b allowed rnd).1 (GRID_ROWS - (survivorRows b c 0).length + i) c).id =
        (b ((survivorRows b c 0).getD i 0) c).id ∧
      ((applyGravity b allowed rnd).1 (GRID_ROWS - (survivorRows b c 0).length + i) c).type =
        (b ((survivorRows b c 0).getD i 0) c).type ∧
      ((applyGravity b allowed rnd).1
          (GRID_ROWS - (survivorRows b c 0).length + i) c).special =
        (b ((survivorRows b c 0).getD i 0) c).special) ∧
    (∃ x1 x2, (applyGravity b allowed rnd).1 r c =
      newGem allowed r c (GRID_ROWS - (survivorRows b c 0).length) x1 x2) := by
  obtain ⟨hcol, -⟩ := applyGravity_spec b allowed rnd
  have hs := (hcol c hc).survivors i hi
  have hf := (hcol c hc).fresh r hr
  refine ⟨?_, hf⟩
  rw [hs]
  obtain ⟨h1, h2, h3, -⟩ := adjustCell_fields (b ((survivorRows b c 0).getD i 0) c)
    ((survivorRows b c 0).getD i 0) (GRID_ROWS - (survivorRows b c 0).length + i)
  exact ⟨h1, h2, h3⟩

/-- Witness for C2 on a concrete board (one MATCHED cell at (3,0)): column 0,
first survivor, first refill row. -/
theorem claim2_witness :
    (((applyGravity gravityDemoBoard [GemType.RED] (fun n => n)).1
        (GRID_ROWS - (survivorRows gravityDemoBoard 0 0).length + 0) 0).id =
        (gravityDemoBoard ((survivorRows gravityDemoBoard 0 0).getD 0 0) 0).id ∧
      ((applyGravity gravityDemoBoard [GemType.RED] (fun n => n)).1
        (GRID_ROWS - (survivorRows gravityDemoBoard 0 0).length + 0) 0).type =
        (gravityDemoBoard ((survivorRows gravityDemoBoard 0 0).getD 0 0) 0).type ∧
      ((applyGravity gravityDemoBoard [GemType.RED] (fun n => n)).1
          (GRID_ROWS - (survivorRows gravityDemoBoard 0 0).length + 0) 0).special =
        (gravityDemoBoard ((survivorRows gravityDemoBoard 0 0).getD 0 0) 0).special) ∧
    (∃ x1 x2, (applyGravity gravityDemoBoard [GemType.RED] (fun n => n)).1 0 0 =
      newGem [GemType.RED] 0 0
        (GRID_ROWS - (survivorRows gravityDemoBoard 0 0).length) x1 x2) :=
  claim2_applyGravity_preserves gravityDemoBoard [GemType.RED] (fun n => n) 0 0 0
    (by decide) (by decide) (by decide)

/-- C10.  The board returned by `applyGravity` contains no MATCHED or EMPTY
cell, and `movesDetected` is true exactly when the input board contained at
least one MATCHED or EMPTY cell. -/
theorem claim10_applyGravity_statuses (b : Board) (allowed : List GemType)
    (rnd : Nat → Nat) (r c : Nat) (hr : r < GRID_ROWS) (hc : c < GRID_COLS) :
    ((applyGravity b allowed rnd).1 r c).status ≠ CellStatus.MATCHED ∧
    ((applyGravity b allowed rnd).1 r c).status ≠ CellStatus.EMPTY ∧
    ((applyGravity b allowed rnd).2 = true ↔
      ∃ r' c', r' < GRID_ROWS ∧ c' < GRID_COLS ∧
        ((b r' c').status = CellStatus.MATCHED ∨
          (b r' c').status = CellStatus.EMPTY)) := by
  obtain ⟨hcol, hmv⟩ := applyGravity_spec b allowed rnd
  have hspec := hcol c hc
  have hstat : ((applyGravity b allowed rnd).1 r c).status ≠ CellStatus.MATCHED ∧
      ((applyGravity b allowed rnd).1 r c).status ≠ CellStatus.EMPTY := by
    by_cases hfr : r < GRID_ROWS - (survivorRows b c 0).length
    · obtain ⟨x1, x2, hg⟩ := hspec.fresh r hfr
      rw [hg]
      constructor <;> intro h <;> simp [newGem] at h
    · have hsum := survivor_empty_split b c 0
      rw [Nat.sub_zero] at hsum
      have hi : r - (GRID_ROWS - (survivorRows b c 0).length) <
          (survivorRows b c 0).length := by omega
      have hpos : GRID_ROWS - (survivorRows b c 0).length +
          (r - (GRID_ROWS - (survivorRows b c 0).length)) = r := by omega
      have hs := hspec.survivors (r - (GRID_ROWS - (survivorRows b c 0).length)) hi
      rw [hpos] at hs
      rw [hs]
      have hmem := survivorRows_getD_mem b c _ hi
      have hocc := survivorRows_not_empty b c 0 _ hmem
      rw [isEmptySlot_false_iff] at hocc
      obtain ⟨-, -, -, hst⟩ := adjustCell_fields
        (b ((survivorRows b c 0).getD (r - (GRID_ROWS - (survivorRows b c 0).length)) 0) c)
        ((survivorRows b c 0).getD (r - (GRID_ROWS - (survivorRows b c 0).length)) 0) r
      rcases hst with hst | hst <;> rw [hst]
      · exact hocc
      · exact ⟨by decide, by decide⟩
  refine ⟨hstat.1, hstat.2, ?_⟩
  rw [hmv]
  constructor
  · rintro ⟨c', hc', hpos⟩
    obtain ⟨r', hr', hslot⟩ := (emptyCount_pos_iff b c').mp hpos
    exact ⟨r', c', hr', hc', (isEmptySlot_iff _).mp hslot⟩
  · rintro ⟨r', c', hr', hc', hdisj⟩
    exact ⟨c', hc', (emptyCount_pos_iff b c').mpr ⟨r', hr', (isEmptySlot_iff _).mpr hdisj⟩⟩

/-- Witness for C10 at the concrete demo board. -/
theorem claim10_witness :
    ((applyGravity gravityDemoBoard [GemType.RED] (fun n => n)).1 0 0).status ≠
      CellStatus.MATCHED ∧
    ((applyGravity gravityDemoBoard [GemType.RED] (fun n => n)).1 0 0).status ≠
      CellStatus.EMPTY ∧
    ((applyGravity gravityDemoBoard [GemType.RED] (fun n => n)).2 = true ↔
      ∃ r' c', r' < GRID_ROWS ∧ c' < GRID_COLS ∧
        ((gravityDemoBoard r' c').status = CellStatus.MATCHED ∨
          (gravityDemoBoard r' c').status = CellStatus.EMPTY)) :=
  claim10_applyGravity_statuses gravityDemoBoard [GemType.RED] (fun n => n) 0 0
    (by decide) (by decide)

theorem boardIds_mem (b : Board) (r c : Nat) (hr : r < GRID_ROWS) (hc : c < GRID_COLS) :
    (b r c).id ∈ boardIds b := by
  unfold boardIds
  rw [List.mem_toFinset, List.mem_map]
  refine ⟨(r, c), ?_, rfl⟩
  unfold allPositions
  rw [List.mem_flatMap]
  exact ⟨r, List.mem_range.mpr hr, List.mem_map.mpr ⟨c, List.mem_range.mpr hc, rfl⟩⟩

theorem boardIds_card_le (b : Board) : (boardIds b).card ≤ 64 := by
  unfold boardIds
  have h1 := List.toFinset_card_le (allPositions.map (fun p => (b p.1 p.2).id))
  have h2 : (allPositions.map (fun p => (b p.1 p.2).id)).length = 64 := by
    rw [List.length_map]
    rfl
  omega

set_option maxHeartbeats 1000000 in
/-- Folding the neighbor-push step over any coordinate list preserves the BFS
invariants and decreases the measure `5·|unvisited board ids| + |queue|` by at
least 4 per enqueued cell. -/
theorem pushNeighborsFold_spec (b : Board) (matchedIds : Finset CellId) (cur : Cell)
    (τ : Option GemType) (V0 : Finset CellId) (G : List Cell) (hτ : cur.type = τ) :
    ∀ (coords : List (Int × Int)) (q : List Cell) (v : Finset CellId),
      (∀ cl ∈ q, cl.id ∈ matchedIds ∧ cl.type = τ) →
      v = V0 ∪ ((G ++ q).map Cell.id).toFinset →
      ((G ++ q).map Cell.id).Nodup →
      (∀ cl ∈ G ++ q, cl.id ∉ V0) →
      (∀ cl ∈ (coords.foldl (pushNeighbors b matchedIds cur) (q, v)).1,
        cl.id ∈ matchedIds ∧ cl.type = τ) ∧
      (coords.foldl (pushNeighbors b matchedIds cur) (q, v)).2 =
        V0 ∪ ((G ++ (coords.foldl (pushNeighbors b matchedIds cur) (q, v)).1).map
          Cell.id).toFinset ∧
      ((G ++ (coords.foldl (pushNeighbors b matchedIds cur) (q, v)).1).map
        Cell.id).Nodup ∧
      (∀ cl ∈ G ++ (coords.foldl (pushNeighbors b matchedIds cur) (q, v)).1,
        cl.id ∉ V0) ∧
      (∀ cl ∈ q, cl ∈ (coords.foldl (pushNeighbors b matchedIds cur) (q, v)).1) ∧
      5 * ((boardIds b \ (coords.foldl (pushNeighbors b matchedIds cur) (q, v)).2).card) +
          (coords.foldl (pushNeighbors b matchedIds cur) (q, v)).1.length ≤
        5 * ((boardIds b \ v).card) + q.length := by
  intro coords
  induction coords with
  | nil =>
    intro q v hq hv hnd hV0
    exact ⟨hq, hv, hnd, hV0, fun cl hcl => hcl, le_refl _⟩
  | cons co coords ih =>
    intro q v hq hv hnd hV0
    rw [List.foldl_cons]
    by_cases hb : 0 ≤ co.1 ∧ co.1 < (GRID_ROWS : Int) ∧ 0 ≤ co.2 ∧ co.2 < (GRID_COLS : Int)
    · by_cases hcond : (b co.1.toNat co.2.toNat).id ∈ matchedIds ∧
          (b co.1.toNat co.2.toNat).id ∉ v ∧ (b co.1.toNat co.2.toNat).type = cur.type
      · have hstep : pushNeighbors b matchedIds cur (q, v) co =
            (q ++ [b co.1.toNat co.2.toNat], insert (b co.1.toNat co.2.toNat).id v) := by
          simp only [pushNeighbors]
          rw [if_pos hb, if_pos hcond]
        rw [hstep]
        have hidb : (b co.1.toNat co.2.toNat).id ∈ boardIds b :=
          boardIds_mem b _ _ (by omega) (by omega)
        have hnotV0 : (b co.1.toNat co.2.toNat).id ∉ V0 := fun hmem =>
          hcond.2.1 (hv ▸ Finset.mem_union_left _ hmem)
        have hnotold : (b co.1.toNat co.2.toNat).id ∉ ((G ++ q).map Cell.id).toFinset :=
          fun hmem => hcond.2.1 (hv ▸ Finset.mem_union_right _ hmem)
        have hassoc : G ++ (q ++ [b co.1.toNat co.2.toNat]) =
            (G ++ q) ++ [b co.1.toNat co.2.toNat] := (List.append_assoc G q _).symm
        have hq2 : ∀ cl ∈ q ++ [b co.1.toNat co.2.toNat],
            cl.id ∈ matchedIds ∧ cl.type = τ := by
          intro cl hcl
          rcases List.mem_append.mp hcl with hcl | hcl
          · exact hq cl hcl
          · rw [List.mem_singleton] at hcl
            subst hcl
            exact ⟨hcond.1, hcond.2.2.trans hτ⟩
        have hv2 : insert (b co.1.toNat co.2.toNat).id v =
            V0 ∪ ((G ++ (q ++ [b co.1.toNat co.2.toNat])).map Cell.id).toFinset := by
          rw [hassoc, List.map_append, List.toFinset_append, hv]
          have hsing : (([b co.1.toNat co.2.toNat].map Cell.id).toFinset : Finset CellId) =
              {(b co.1.toNat co.2.toNat).id} := by simp
          rw [hsing]
          generalize ((G ++ q).map Cell.id).toFinset = S
          ext x
          simp only [Finset.mem_insert, Finset.mem_union, Finset.mem_singleton]
          constructor
          · rintro (rfl | h | h)
            · exact Or.inr (Or.inr rfl)
            · exact Or.inl h
            · exact Or.inr (Or.inl h)
          · rintro (h | h | rfl)
            · exact Or.inr (Or.inl h)
            · exact Or.inr (Or.inr h)
            · exact Or.inl rfl
        have hnd2 : ((G ++ (q ++ [b co.1.toNat co.2.toNat])).map Cell.id).Nodup := by
          rw [hassoc, List.map_append, List.nodup_append]
          refine ⟨hnd, List.nodup_singleton _, ?_⟩
          intro x hx hx2
          simp only [List.map_cons, List.map_nil, List.mem_singleton] at hx2
          subst hx2
          exact hnotold (List.mem_toFinset.mpr hx)
        have hV02 : ∀ cl ∈ G ++ (q ++ [b co.1.toNat co.2.toNat]), cl.id ∉ V0 := by
          intro cl hcl
          rw [hassoc] at hcl
          rcases List.mem_append.mp hcl with hcl | hcl
          · exact hV0 cl hcl
          · rw [List.mem_singleton] at hcl
            subst hcl
            exact hnotV0
        obtain ⟨h1, h2, h3, h4, h5, h6⟩ := ih (q ++ [b co.1.toNat co.2.toNat])
          (insert (b co.1.toNat co.2.toNat).id v) hq2 hv2 hnd2 hV02
        refine ⟨h1, h2, h3, h4, ?_, ?_⟩
        · intro cl hcl
          exact h5 cl (List.mem_append_left _ hcl)
        · have hsd : boardIds b \ insert (b co.1.toNat co.2.toNat).id v =
              (boardIds b \ v).erase (b co.1.toNat co.2.toNat).id :=
            Finset.sdiff_insert _ _ _
          have hin : (b co.1.toNat co.2.toNat).id ∈ boardIds b \ v :=
            Finset.mem_sdiff.mpr ⟨hidb, hcond.2.1⟩
          have hcard : ((boardIds b \ v).erase (b co.1.toNat co.2.toNat).id).card =
              (boardIds b \ v).card - 1 := Finset.card_erase_of_mem hin
          have hpos : 0 < (boardIds b \ v).card := Finset.card_pos.mpr ⟨_, hin⟩
          rw [hsd, hcard] at h6
          rw [List.length_append, List.length_singleton] at h6
          omega
      · have hstep : pushNeighbors b matchedIds cur (q, v) co = (q, v) := by
          simp only [pushNeighbors]
          rw [if_pos hb, if_neg hcond]
        rw [hstep]
        exact ih q v hq hv hnd hV0
    · have hstep : pushNeighbors b matchedIds cur (q, v) co = (q, v) := by
        simp only [pushNeighbors]
        rw [if_neg hb]
      rw [hstep]
      exact ih q v hq hv hnd hV0

set_option maxHeartbeats 1000000 in
/-- Full specification of the BFS loop: given the invariants and a sufficient
budget, the returned group consists of matched cells of type `τ`, its ids are
distinct, disjoint from the previously visited set `V0`, the returned visited
set is exactly `V0` plus the group's ids, and everything that was in the group
or queue ends in the group. -/
theorem bfsAux_spec (b : Board) (matchedIds : Finset CellId) (τ : Option GemType) :
    ∀ (fuel : Nat) (queue : List Cell) (visited : Finset CellId) (group : List Cell)
      (V0 : Finset CellId),
      5 * ((boardIds b \ visited).card) + queue.length ≤ fuel →
      (∀ cl ∈ queue, cl.id ∈ matchedIds ∧ cl.type = τ) →
      (∀ cl ∈ group, cl.id ∈ matchedIds ∧ cl.type = τ) →
      visited = V0 ∪ ((group ++ queue).map Cell.id).toFinset →
      (∀ cl ∈ group ++ queue, cl.id ∉ V0) →
      ((group ++ queue).map Cell.id).Nodup →
      (∀ cl ∈ (bfsAux b matchedIds fuel queue visited group).1,
        cl.id ∈ matchedIds ∧ cl.type = τ) ∧
      (bfsAux b matchedIds fuel queue visited group).2 =
        V0 ∪ (((bfsAux b matchedIds fuel queue visited group).1).map Cell.id).toFinset ∧
      (∀ cl ∈ (bfsAux b matchedIds fuel queue visited group).1, cl.id ∉ V0) ∧
      (((bfsAux b matchedIds fuel queue visited group).1).map Cell.id).Nodup ∧
      (∀ cl ∈ group ++ queue, cl ∈ (bfsAux b matchedIds fuel queue visited group).1) := by
  intro fuel
  induction fuel with
  | zero =>
    intro queue visited group V0 hfuel hq hg hvis hV0 hnd
    have hq0 : queue = [] := List.length_eq_zero.mp (by omega)
    subst hq0
    rw [List.append_nil] at hvis hV0 hnd
    exact ⟨hg, by simpa using hvis, hV0, hnd, fun cl hcl => by simpa using hcl⟩
  | succ fuel ih =>
    intro queue visited group V0 hfuel hq hg hvis hV0 hnd
    cases queue with
    | nil =>
      rw [List.append_nil] at hvis hV0 hnd
      exact ⟨hg, by simpa using hvis, hV0, hnd, fun cl hcl => by simpa using hcl⟩
    | cons current rest =>
      have hcur := hq current (List.mem_cons_self _ _)
      have hlist : group ++ current :: rest = (group ++ [current]) ++ rest :=
        List.append_cons group current rest
      have key := pushNeighborsFold_spec b matchedIds current τ V0 (group ++ [current])
        hcur.2 (neighborCoords current) rest visited
        (fun cl hcl => hq cl (List.mem_cons_of_mem _ hcl))
        (by rw [← hlist]; exact hvis)
        (by rw [← hlist]; exact hnd)
        (by rw [← hlist]; exact hV0)
      simp only [bfsAux]
      generalize hfold :
        (neighborCoords current).foldl (pushNeighbors b matchedIds current)
          (rest, visited) = P at key ⊢
      obtain ⟨q2, v2⟩ := P
      dsimp only at key ⊢
      obtain ⟨k1, k2, k3, k4, k5, k6⟩ := key
      have hg2 : ∀ cl ∈ group ++ [current], cl.id ∈ matchedIds ∧ cl.type = τ := by
        intro cl hcl
        rcases List.mem_append.mp hcl with hcl | hcl
        · exact hg cl hcl
        · rw [List.mem_singleton] at hcl
          subst hcl
          exact hcur
      have hres := ih q2 v2 (group ++ [current]) V0
        (by rw [List.length_cons] at hfuel; omega) k1 hg2 k2 k4 k3
      refine ⟨hres.1, hres.2.1, hres.2.2.1, hres.2.2.2.1, ?_⟩
      intro cl hcl
      rw [hlist] at hcl
      rcases List.mem_append.mp hcl with hcl | hcl
      · exact hres.2.2.2.2 cl (List.mem_append_left _ hcl)
      · exact hres.2.2.2.2 cl (List.mem_append_right _ (k5 cl hcl))

set_option maxHeartbeats 1000000 in
/-- The seeding scan maintains `GroupsInv`, only grows the visited set, and
ends with the id of every matched cell at a scanned position visited. -/
theorem groupsFold_spec (b : Board) (matchedIds : Finset CellId) :
    ∀ (l : List (Nat × Nat)) (st : Finset CellId × List (List Cell)),
      GroupsInv matchedIds st →
      GroupsInv matchedIds (l.foldl (seedStep b matchedIds) st) ∧
      (∀ x ∈ st.1, x ∈ (l.foldl (seedStep b matchedIds) st).1) ∧
      (∀ p ∈ l, (b p.1 p.2).id ∈ matchedIds →
        (b p.1 p.2).id ∈ (l.foldl (seedStep b matchedIds) st).1) := by
  intro l
  induction l with
  | nil =>
    intro st h
    exact ⟨h, fun x hx => hx, fun p hp => absurd hp (List.not_mem_nil p)⟩
  | cons p l ih =>
    intro st hinv
    rw [List.foldl_cons]
    by_cases hseed : (b p.1 p.2).id ∈ matchedIds ∧ (b p.1 p.2).id ∉ st.1
    · have hfuelb : 5 * ((boardIds b \ insert (b p.1 p.2).id st.1).card) +
          ([b p.1 p.2] : List Cell).length ≤ bfsFuel := by
        have h1 := boardIds_card_le b
        have h2 : (boardIds b \ insert (b p.1 p.2).id st.1).card ≤ (boardIds b).card :=
          Finset.card_le_card Finset.sdiff_subset
        have h3 : bfsFuel = 322 := rfl
        simp only [List.length_singleton]
        omega
      have hvisb : insert (b p.1 p.2).id st.1 =
          st.1 ∪ ((([] : List Cell) ++ [b p.1 p.2]).map Cell.id).toFinset := by
        ext x
        simp only [Finset.mem_insert, Finset.mem_union, List.nil_append, List.map_cons,
          List.map_nil, List.mem_toFinset, List.mem_cons, List.not_mem_nil, or_false]
        exact or_comm
      have hV0b : ∀ cl ∈ ([] : List Cell) ++ [b p.1 p.2], cl.id ∉ st.1 := by
        intro cl hcl
        simp only [List.nil_append, List.mem_singleton] at hcl
        subst hcl
        exact hseed.2
      have hndb : ((([] : List Cell) ++ [b p.1 p.2]).map Cell.id).Nodup := by simp
      have hqb : ∀ cl ∈ [b p.1 p.2], cl.id ∈ matchedIds ∧ cl.type = (b p.1 p.2).type := by
        intro cl hcl
        simp only [List.mem_singleton] at hcl
        subst hcl
        exact ⟨hseed.1, rfl⟩
      have hgb : ∀ cl ∈ ([] : List Cell),
          cl.id ∈ matchedIds ∧ cl.type = (b p.1 p.2).type :=
        fun cl hcl => absurd hcl (List.not_mem_nil cl)
      have hspec := bfsAux_spec b matchedIds (b p.1 p.2).type bfsFuel [b p.1 p.2]
        (insert (b p.1 p.2).id st.1) [] st.1 hfuelb hqb hgb hvisb hV0b hndb
      have hstepEq : seedStep b matchedIds st p =
          ((bfsAux b matchedIds bfsFuel [b p.1 p.2] (insert (b p.1 p.2).id st.1) []).2,
            st.2 ++ [(bfsAux b matchedIds bfsFuel [b p.1 p.2]
              (insert (b p.1 p.2).id st.1) []).1]) := by
        simp only [seedStep]
        rw [if_pos hseed]
      rw [hstepEq]
      generalize hBf : bfsAux b matchedIds bfsFuel [b p.1 p.2]
        (insert (b p.1 p.2).id st.1) [] = B at hspec ⊢
      obtain ⟨g, v⟩ := B
      dsimp only at hspec ⊢
      obtain ⟨s1, s2, s3, s4, s5⟩ := hspec
      have hflat : ((st.2 ++ [g]).flatMap (fun g => g.map Cell.id)) =
          st.2.flatMap (fun g => g.map Cell.id) ++ g.map Cell.id := by
        rw [List.flatMap_append]
        simp
      have hinv2 : GroupsInv matchedIds (v, st.2 ++ [g]) := by
        refine ⟨?_, ?_, ?_, ?_⟩
        · show v = _
          rw [s2, hflat, List.toFinset_append, hinv.visitedEq]
        · show ((st.2 ++ [g]).flatMap (fun g => g.map Cell.id)).Nodup
          rw [hflat, List.nodup_append]
          refine ⟨hinv.nodup, s4, ?_⟩
          intro x hx hx2
          obtain ⟨cl, hcl, rfl⟩ := List.mem_map.mp hx2
          exact s3 cl hcl (hinv.visitedEq ▸ List.mem_toFinset.mpr hx)
        · intro g2 hg2 cl hcl
          rcases List.mem_append.mp hg2 with hg2 | hg2
          · exact hinv.matched g2 hg2 cl hcl
          · rw [List.mem_singleton] at hg2
            subst hg2
            exact (s1 cl hcl).1
        · intro g2 hg2 x hx y hy
          rcases List.mem_append.mp hg2 with hg2 | hg2
          · exact hinv.uniform g2 hg2 x hx y hy
          · rw [List.mem_singleton] at hg2
            subst hg2
            rw [(s1 x hx).2, (s1 y hy).2]
      obtain ⟨f1, f2, f3⟩ := ih (v, st.2 ++ [g]) hinv2
      refine ⟨f1, ?_, ?_⟩
      · intro x hx
        refine f2 x ?_
        show x ∈ v
        rw [s2]
        exact Finset.mem_union_left _ hx
      · intro p2 hp2 hm2
        rw [List.mem_cons] at hp2
        rcases hp2 with rfl | hp2
        · refine f2 _ ?_
          show (b p2.1 p2.2).id ∈ v
          rw [s2]
          refine Finset.mem_union_right _ (List.mem_toFinset.mpr ?_)
          exact List.mem_map_of_mem Cell.id (s5 _ (by simp))
        · exact f3 p2 hp2 hm2
    · have hstepEq : seedStep b matchedIds st p = st := by
        simp only [seedStep]
        rw [if_neg hseed]
      rw [hstepEq]
      obtain ⟨f1, f2, f3⟩ := ih st hinv
      refine ⟨f1, f2, ?_⟩
      intro p2 hp2 hm2
      rw [List.mem_cons] at hp2
      rcases hp2 with rfl | hp2
      · have hvis : (b p2.1 p2.2).id ∈ st.1 := by
          by_contra hnot
          exact hseed ⟨hm2, hnot⟩
        exact f2 _ hvis
      · exact f3 p2 hp2 hm2

/-- C4.  For every board and matched-identifier set whose identifiers all
occur on the board, `getConnectedGroups` returns a true partition of the
matched set: the ids of all group members are pairwise distinct and form
exactly the matched set, and within each group every cell has the same token
type. -/
theorem claim4_getConnectedGroups_partition (b : Board) (matchedIds : Finset CellId)
    (hsub : matchedIds ⊆ boardIds b) :
    ((getConnectedGroups b matchedIds).flatMap (fun g => g.map Cell.id)).Nodup ∧
    ((getConnectedGroups b matchedIds).flatMap (fun g => g.map Cell.id)).toFinset =
      matchedIds ∧
    (∀ g ∈ getConnectedGroups b matchedIds, ∀ x ∈ g, ∀ y ∈ g, x.type = y.type) := by
  have hbase : GroupsInv matchedIds ((∅ : Finset CellId), ([] : List (List Cell))) := by
    refine ⟨by simp, by simp, ?_, ?_⟩
    · intro g hg
      exact absurd hg (List.not_mem_nil g)
    · intro g hg
      exact absurd hg (List.not_mem_nil g)
  obtain ⟨hinv, hmono, hcov⟩ := groupsFold_spec b matchedIds allPositions _ hbase
  unfold getConnectedGroups
  refine ⟨hinv.nodup, ?_, hinv.uniform⟩
  apply Finset.Subset.antisymm
  · intro x hx
    rw [List.mem_toFinset] at hx
    obtain ⟨g, hg, hx⟩ := List.mem_flatMap.mp hx
    obtain ⟨cl, hcl, rfl⟩ := List.mem_map.mp hx
    exact hinv.matched g hg cl hcl
  · intro x hx
    obtain ⟨px, hpx, hpid⟩ : ∃ p, p ∈ allPositions ∧ (b p.1 p.2).id = x := by
      have hxb := hsub hx
      unfold boardIds at hxb
      rw [List.mem_toFinset] at hxb
      obtain ⟨p, hp, hpeq⟩ := List.mem_map.mp hxb
      exact ⟨p, hp, hpeq⟩
    have := hcov px hpx (hpid ▸ hx)
    rw [hpid] at this
    rw [← hinv.visitedEq]
    exact this

/-- Witness for C4 at a concrete board and matched set: the scenario board's
own match set. -/
theorem claim4_witness :
    ((getConnectedGroups c8Board (findMatches c8Board)).flatMap
      (fun g => g.map Cell.id)).Nodup ∧
    ((getConnectedGroups c8Board (findMatches c8Board)).flatMap
      (fun g => g.map Cell.id)).toFinset = findMatches c8Board ∧
    (∀ g ∈ getConnectedGroups c8Board (findMatches c8Board),
      ∀ x ∈ g, ∀ y ∈ g, x.type = y.type) :=
  claim4_getConnectedGroups_partition c8Board (findMatches c8Board) (by decide)

/-- If every possible draw is rejected, the sampling loop never leaves,
whatever its budget. -/
theorem drawAttempts_reject_all (allowed : List GemType) (rnd : Nat → Nat)
    (reject : Option GemType → Bool)
    (h : ∀ n, reject (allowed.get? (rnd n % allowed.length)) = true) :
    ∀ fuel n, drawAttempts allowed rnd reject fuel n = none := by
  intro fuel
  induction fuel with
  | zero => intro n; rfl
  | succ fuel ih =>
    intro n
    simp only [drawAttempts]
    rw [if_pos (h n)]
    exact ih (n + 1)

/-- With an empty allowed set, building the first row fails as soon as column
2 is reached: every draw is `undefined`, and `undefined === undefined`
satisfies the rejection condition forever. -/
theorem buildRowAux_nil (rnd : Nat → Nat) (fuel : Nat) :
    ∀ (m c : Nat) (row : List Cell) (n : Nat),
      (∀ cl ∈ row, cl.type = none) → row.length = c → 3 ≤ c + m → c ≤ 2 →
      buildRowAux [] rnd fuel [] 0 m c row n = none := by
  intro m
  induction m with
  | zero => intro c row n _ _ h3 h4; omega
  | succ m ih =>
    intro c row n hrow hlen h3 h4
    by_cases hc : 2 ≤ c
    · -- rejection holds for every draw: the cells to the left have type none
      have hrej : ∀ n2, rejectInitialDraw [] row 0 c
          (([] : List GemType).get? (rnd n2 % ([] : List GemType).length)) = true := by
        intro n2
        have hd : (([] : List GemType).get? (rnd n2 % ([] : List GemType).length)) =
            none := rfl
        rw [hd]
        unfold rejectInitialDraw
        have h1 : (row.getD (c - 1) defaultCell).type = none := by
          have : row.getD (c - 1) defaultCell ∈ row := by
            rw [List.getD_eq_getElem row defaultCell (by omega)]
            exact List.getElem_mem _
          exact hrow _ this
        have h2 : (row.getD (c - 2) defaultCell).type = none := by
          have : row.getD (c - 2) defaultCell ∈ row := by
            rw [List.getD_eq_getElem row defaultCell (by omega)]
            exact List.getElem_mem _
          exact hrow _ this
        simp [hc]
        exact ⟨by simpa using h1, by simpa using h2⟩
      simp only [buildRowAux]
      rw [drawAttempts_reject_all [] rnd _ hrej fuel n]
    · -- columns 0 and 1 accept the undefined draw immediately
      cases fuel with
      | zero => simp only [buildRowAux, drawAttempts]
      | succ fuel =>
        have hacc : drawAttempts [] rnd (fun t => rejectInitialDraw [] row 0 c t)
            (fuel + 1) n = some (none, n + 1) := by
          simp only [drawAttempts]
          have hd : (([] : List GemType).get? (rnd n % ([] : List GemType).length)) =
              none := rfl
          rw [hd]
          rw [if_neg ?hneg]
          case hneg =>
            unfold rejectInitialDraw
            simp [hc]
        simp only [buildRowAux]
        rw [hacc]
        exact ih (c + 1) (row ++ [mkInitCell 0 c none (rnd (n + 1))]) (n + 2)
          (by
            intro cl hcl
            rcases List.mem_append.mp hcl with hcl | hcl
            · exact hrow cl hcl
            · rw [List.mem_singleton] at hcl
              subst hcl
              rfl)
          (by rw [List.length_append, hlen]; rfl)
          (by omega)
          (by omega)

/-- C6.  The claim says `createInitialBoard` rejects an empty allowed-type
set with a configuration error; the code instead never terminates: with an
empty set the sampling loop never leaves once column 2 of row 0 is reached
(every draw is `undefined` and the rejection condition then always holds), so
the embedded construction returns `none` for every attempt budget and every
random sequence — no board and no signalled error are ever produced. -/
theorem claim6_createInitialBoard_empty (rnd : Nat → Nat) (fuel : Nat) :
    createInitialBoard [] rnd fuel = none := by
  unfold createInitialBoard
  have hb : buildBoardAux [] rnd fuel GRID_ROWS [] 0 = none := by
    rw [show GRID_ROWS = 7 + 1 from rfl]
    simp only [buildBoardAux]
    rw [show (([] : List (List Cell)).length) = 0 from rfl]
    rw [buildRowAux_nil rnd fuel GRID_COLS 0 [] 0
      (fun cl hcl => absurd hcl (List.not_mem_nil cl)) rfl (by decide) (by decide)]
  rw [hb]
  rfl

/-- A draw returned by the sampling loop was not rejected. -/
theorem drawAttempts_accepted (allowed : List GemType) (rnd : Nat → Nat)
    (reject : Option GemType → Bool) :
    ∀ (fuel n : Nat) (t : Option GemType) (n2 : Nat),
      drawAttempts allowed rnd reject fuel n = some (t, n2) → reject t = false := by
  intro fuel
  induction fuel with
  | zero =>
    intro n t n2 h
    exact absurd h (by simp [drawAttempts])
  | succ fuel ih =>
    intro n t n2 h
    simp only [drawAttempts] at h
    by_cases hr : reject (allowed.get? (rnd n % allowed.length)) = true
    · rw [if_pos hr] at h
      exact ih _ _ _ h
    · rw [if_neg hr] at h
      cases h
      simpa using hr

/-- Specification of the inner column loop: on success it appends `m` cells,
leaves the prefix untouched, and no appended cell completes a 3-run to its
left or towards the two rows above. -/
theorem buildRowAux_spec (allowed : List GemType) (rnd : Nat → Nat) (fuel : Nat)
    (rows : List (List Cell)) (r : Nat) :
    ∀ (m c : Nat) (row : List Cell) (n : Nat) (row2 : List Cell) (n2 : Nat),
      buildRowAux allowed rnd fuel rows r m c row n = some (row2, n2) →
      row.length = c →
      row2.length = c + m ∧
      (∀ i, i < c → row2.getD i defaultCell = row.getD i defaultCell) ∧
      (∀ j, c ≤ j → j < c + m → 2 ≤ j →
        ¬((row2.getD (j - 1) defaultCell).type = (row2.getD j defaultCell).type ∧
          (row2.getD (j - 2) defaultCell).type = (row2.getD j defaultCell).type)) ∧
      (∀ j, c ≤ j → j < c + m → 2 ≤ r →
        ¬(((rows.getD (r - 1) []).getD j defaultCell).type =
            (row2.getD j defaultCell).type ∧
          ((rows.getD (r - 2) []).getD j defaultCell).type =
            (row2.getD j defaultCell).type)) := by
  intro m
  induction m with
  | zero =>
    intro c row n row2 n2 h hlen
    simp only [buildRowAux] at h
    cases h
    refine ⟨by omega, fun i _ => rfl, ?_, ?_⟩
    · intro j h1 h2
      exact absurd h2 (by omega)
    · intro j h1 h2
      exact absurd h2 (by omega)
  | succ m ih =>
    intro c row n row2 n2 h hlen
    simp only [buildRowAux] at h
    rcases hdraw : drawAttempts allowed rnd (fun t => rejectInitialDraw rows row r c t)
      fuel n with - | ⟨t, nn⟩
    · rw [hdraw] at h
      cases h
    · rw [hdraw] at h
      have hrej := drawAttempts_accepted allowed rnd _ fuel n t nn hdraw
      have hnotH : 2 ≤ c → ¬((row.getD (c - 1) defaultCell).type = t ∧
          (row.getD (c - 2) defaultCell).type = t) := by
        rintro hc ⟨e1, e2⟩
        have : rejectInitialDraw rows row r c t = true := by
          unfold rejectInitialDraw
          rw [Bool.or_eq_true]
          left
          rw [Bool.and_eq_true, Bool.and_eq_true]
          exact ⟨⟨decide_eq_true hc, beq_iff_eq.mpr e1⟩, beq_iff_eq.mpr e2⟩
        rw [this] at hrej
        cases hrej
      have hnotV : 2 ≤ r → ¬(((rows.getD (r - 1) []).getD c defaultCell).type = t ∧
          ((rows.getD (r - 2) []).getD c defaultCell).type = t) := by
        rintro hr ⟨e1, e2⟩
        have : rejectInitialDraw rows row r c t = true := by
          unfold rejectInitialDraw
          rw [Bool.or_eq_true]
          right
          rw [Bool.and_eq_true, Bool.and_eq_true]
          exact ⟨⟨decide_eq_true hr, beq_iff_eq.mpr e1⟩, beq_iff_eq.mpr e2⟩
        rw [this] at hrej
        cases hrej
      obtain ⟨len2, pre2, noH2, noV2⟩ := ih (c + 1) (row ++ [mkInitCell r c t (rnd nn)])
        (nn + 1) row2 n2 h (by rw [List.length_append, hlen]; rfl)
      have hkeep : ∀ i, i < c + 1 →
          row2.getD i defaultCell = (row ++ [mkInitCell r c t (rnd nn)]).getD i defaultCell :=
        pre2
      have hatc : row2.getD c defaultCell = mkInitCell r c t (rnd nn) := by
        rw [hkeep c (by omega)]
        rw [← hlen, List.getD_append_right row _ defaultCell row.length (le_refl _),
          Nat.sub_self]
        rfl
      have hbelow : ∀ i, i < c → row2.getD i defaultCell = row.getD i defaultCell := by
        intro i hi
        rw [hkeep i (by omega), List.getD_append row _ defaultCell i (by omega)]
      refine ⟨by omega, hbelow, ?_, ?_⟩
      · intro j h1 h2 h3
        rcases Nat.eq_or_lt_of_le h1 with rfl | hlt
        · rw [hatc]
          rw [hbelow (c - 1) (by omega), hbelow (c - 2) (by omega)]
          exact hnotH h3
        · exact noH2 j (by omega) (by omega) h3
      · intro j h1 h2 hr
        rcases Nat.eq_or_lt_of_le h1 with rfl | hlt
        · rw [hatc]
          exact hnotV hr
        · exact noV2 j (by omega) (by omega) hr

/-- Specification of the outer row loop: on success it appends `m` rows of
length `GRID_COLS`, each free of horizontal 3-runs, and each free of vertical
3-runs against the two rows above it. -/
theorem buildBoardAux_spec (allowed : List GemType) (rnd : Nat → Nat) (fuel : Nat) :
    ∀ (m : Nat) (rows : List (List Cell)) (n : Nat) (rows2 : List (List Cell)) (n2 : Nat),
      buildBoardAux allowed rnd fuel m rows n = some (rows2, n2) →
      (∀ i, i < rows.length → rows2.getD i [] = rows.getD i []) ∧
      rows2.length = rows.length + m ∧
      (∀ i, rows.length ≤ i → i < rows2.length → (rows2.getD i []).length = GRID_COLS) ∧
      (∀ i, rows.length ≤ i → i < rows2.length → ∀ j, j < GRID_COLS → 2 ≤ j →
        ¬(((rows2.getD i []).getD (j - 1) defaultCell).type =
            ((rows2.getD i []).getD j defaultCell).type ∧
          ((rows2.getD i []).getD (j - 2) defaultCell).type =
            ((rows2.getD i []).getD j defaultCell).type)) ∧
      (∀ i, rows.length ≤ i → i < rows2.length → 2 ≤ i → ∀ j, j < GRID_COLS →
        ¬(((rows2.getD (i - 1) []).getD j defaultCell).type =
            ((rows2.getD i []).getD j defaultCell).type ∧
          ((rows2.getD (i - 2) []).getD j defaultCell).type =
            ((rows2.getD i []).getD j defaultCell).type)) := by
  intro m
  induction m with
  | zero =>
    intro rows n rows2 n2 h
    simp only [buildBoardAux] at h
    cases h
    refine ⟨fun i _ => rfl, by omega, ?_, ?_, ?_⟩
    · intro i h1 h2
      exact absurd h2 (by omega)
    · intro i h1 h2
      exact absurd h2 (by omega)
    · intro i h1 h2
      exact absurd h2 (by omega)
  | succ m ih =>
    intro rows n rows2 n2 h
    simp only [buildBoardAux] at h
    rcases hrow : buildRowAux allowed rnd fuel rows rows.length GRID_COLS 0 [] n
      with - | ⟨row1, nn⟩
    · rw [hrow] at h
      cases h
    · rw [hrow] at h
      obtain ⟨rlen, -, rnoH, rnoV⟩ :=
        buildRowAux_spec allowed rnd fuel rows rows.length GRID_COLS 0 [] n row1 nn hrow rfl
      rw [Nat.zero_add] at rlen
      obtain ⟨pre2, len2, cols2, noH2, noV2⟩ := ih (rows ++ [row1]) nn rows2 n2 h
      rw [List.length_append, List.length_singleton] at len2
      have hpre1 : ∀ i, i < rows.length → rows2.getD i [] = rows.getD i [] := by
        intro i hi
        rw [pre2 i (by rw [List.length_append, List.length_singleton]; omega),
          List.getD_append rows _ [] i hi]
      have hat : rows2.getD rows.length [] = row1 := by
        rw [pre2 rows.length (by rw [List.length_append, List.length_singleton]; omega),
          List.getD_append_right rows _ [] rows.length (le_refl _), Nat.sub_self]
        rfl
      refine ⟨hpre1, by omega, ?_, ?_, ?_⟩
      · intro i h1 h2
        rcases Nat.eq_or_lt_of_le h1 with rfl | hlt
        · rw [hat]
          exact rlen
        · exact cols2 i (by rw [List.length_append, List.length_singleton]; omega) h2
      · intro i h1 h2 j hj h2j
        rcases Nat.eq_or_lt_of_le h1 with rfl | hlt
        · rw [hat]
          exact rnoH j (by omega) (by omega) h2j
        · exact noH2 i (by rw [List.length_append, List.length_singleton]; omega) h2 j hj h2j
      · intro i h1 h2 h2i j hj
        rcases Nat.eq_or_lt_of_le h1 with rfl | hlt
        · rw [hat, hpre1 (rows.length - 1) (by omega), hpre1 (rows.length - 2) (by omega)]
          exact rnoV j (by omega) (by omega) h2i
        · exact noV2 i (by rw [List.length_append, List.length_singleton]; omega) h2 h2i j hj

/-- C7.  For every non-empty allowed-type set, every random sequence and
every attempt budget, whenever `createInitialBoard` returns a board, that
board contains no pre-existing matches: `findMatches` on it is empty. -/
theorem claim7_createInitialBoard_noMatches (allowed : List GemType) (rnd : Nat → Nat)
    (fuel : Nat) (hne : allowed ≠ []) :
    noPreexistingMatches (createInitialBoard allowed rnd fuel) := by
  unfold createInitialBoard
  cases hres : buildBoardAux allowed rnd fuel GRID_ROWS [] 0 with
  | none => exact trivial
  | some res =>
    obtain ⟨rows2, n2⟩ := res
    obtain ⟨-, hlen, hcols, hnoH, hnoV⟩ :=
      buildBoardAux_spec allowed rnd fuel GRID_ROWS [] 0 rows2 n2 hres
    rw [List.length_nil, Nat.zero_add] at hlen
    show findMatches (toBoard rows2) = ∅
    rw [Finset.eq_empty_iff_forall_not_mem]
    intro x hx
    rw [findMatches_mem_iff] at hx
    obtain ⟨r, c, hr, hc, hrun, -⟩ := hx
    rcases hrun with ⟨t, a, e, ha, hce, he, hae, hall⟩ | ⟨t, a, e, ha, hre, he, hae, hall⟩
    · -- a horizontal run would put a 3-run at columns a, a+1, a+2 of row r
      refine hnoH r (Nat.zero_le r) (by omega) (a + 2) (by omega) (by omega) ⟨?_, ?_⟩
      · show ((rows2.getD r []).getD (a + 2 - 1) defaultCell).type =
          ((rows2.getD r []).getD (a + 2) defaultCell).type
        have h1 : (toBoard rows2 r (a + 1)).type = some t := hall (a + 1) (by omega) (by omega)
        have h2 : (toBoard rows2 r (a + 2)).type = some t := hall (a + 2) (by omega) (by omega)
        show (toBoard rows2 r (a + 2 - 1)).type = (toBoard rows2 r (a + 2)).type
        rw [show a + 2 - 1 = a + 1 from rfl, h1, h2]
      · have h1 : (toBoard rows2 r a).type = some t := hall a (le_refl a) (by omega)
        have h2 : (toBoard rows2 r (a + 2)).type = some t := hall (a + 2) (by omega) (by omega)
        show (toBoard rows2 r (a + 2 - 2)).type = (toBoard rows2 r (a + 2)).type
        rw [show a + 2 - 2 = a from rfl, h1, h2]
    · -- a vertical run would put a 3-run at rows a, a+1, a+2 of column c
      refine hnoV (a + 2) (Nat.zero_le _) (by omega) (by omega) c (by omega) ⟨?_, ?_⟩
      · have h1 : (toBoard rows2 (a + 1) c).type = some t := hall (a + 1) (by omega) (by omega)
        have h2 : (toBoard rows2 (a + 2) c).type = some t := hall (a + 2) (by omega) (by omega)
        show (toBoard rows2 (a + 2 - 1) c).type = (toBoard rows2 (a + 2) c).type
        rw [show a + 2 - 1 = a + 1 from rfl, h1, h2]
      · have h1 : (toBoard rows2 a c).type = some t := hall a (le_refl a) (by omega)
        have h2 : (toBoard rows2 (a + 2) c).type = some t := hall (a + 2) (by omega) (by omega)
        show (toBoard rows2 (a + 2 - 2) c).type = (toBoard rows2 (a + 2) c).type
        rw [show a + 2 - 2 = a from rfl, h1, h2]

/-- Witness for C7: a concrete non-empty allowed set, the identity random
sequence and budget 5 build an actual board (`isSome`), and that board has no
pre-existing matches. -/
theorem claim7_witness :
    noPreexistingMatches (createInitialBoard
      [GemType.RED, GemType.BLUE, GemType.GREEN] (fun n => n) 5) ∧
    (createInitialBoard [GemType.RED, GemType.BLUE, GemType.GREEN]
      (fun n => n) 5).isSome = true :=
  ⟨claim7_createInitialBoard_noMatches [GemType.RED, GemType.BLUE, GemType.GREEN]
      (fun n => n) 5 (by decide),
    by decide⟩

/-- **C8.** On an 8×8 board with a horizontal run of exactly 4 identical
tokens and no other matches (`c8Board`), with combo 0 and level 1, resolution
finds exactly one connected group, of size 4, classifies it as a column
clear (`COL_BLAST`), and awards `Math.floor(4 * 20 * 1.5 * 1 * 1) = 120`
points; the size, combo and level multipliers evaluate to `1.5`, `1` and `1`
respectively. -/
theorem claim8_scoring_scenario :
    (findMatches c8Board).card = 4 ∧
    (getConnectedGroups c8Board (findMatches c8Board)).length = 1 ∧
    ((getConnectedGroups c8Board (findMatches c8Board)).getD 0 []).length = 4 ∧
    classifyMatchGroup
      ((getConnectedGroups c8Board (findMatches c8Board)).getD 0 []) =
      SpecialType.COL_BLAST ∧
    sizeMultiplier 4 = 3 / 2 ∧ comboMultiplier 0 1 = 1 ∧
    levelBaseMultiplier 1 = 1 ∧ groupScore 4 0 1 = 120 := by
  refine ⟨by decide, by decide, by decide, by decide, ?_, ?_, ?_, ?_⟩ <;>
    norm_num [sizeMultiplier, comboMultiplier, levelBaseMultiplier, groupScore,
      basePoints]

theorem allPositions_mem (p : Nat × Nat) :
    p ∈ allPositions ↔ p.1 < GRID_ROWS ∧ p.2 < GRID_COLS := by
  obtain ⟨r, c⟩ := p
  unfold allPositions
  simp [List.mem_flatMap, List.mem_map, List.mem_range, Prod.mk.injEq]

theorem preMarkedIds_mem (b : Board) (x : CellId) :
    x ∈ preMarkedIds b ↔ ∃ p ∈ allPositions,
      (b p.1 p.2).status = CellStatus.MATCHED ∧ x = (b p.1 p.2).id := by
  unfold preMarkedIds
  rw [foldl_finset_mem
      (fun acc p => if (b p.1 p.2).status = CellStatus.MATCHED
        then insert (b p.1 p.2).id acc else acc)
      (fun p x => (b p.1 p.2).status = CellStatus.MATCHED ∧ x = (b p.1 p.2).id)
      ?hf allPositions ∅ x]
  · simp
  case hf =>
    intro acc c y
    dsimp only
    by_cases h : (b c.1 c.2).status = CellStatus.MATCHED
    · rw [if_pos h, Finset.mem_insert]
      constructor
      · rintro (rfl | hy)
        · exact Or.inr ⟨h, rfl⟩
        · exact Or.inl hy
      · rintro (hy | ⟨-, rfl⟩)
        · exact Or.inr hy
        · exact Or.inl rfl
    · rw [if_neg h]
      constructor
      · exact Or.inl
      · rintro (hy | ⟨hs, -⟩)
        · exact hy
        · exact absurd hs h

theorem boardIds_mem_iff (b : Board) (x : CellId) :
    x ∈ boardIds b ↔ ∃ p ∈ allPositions, (b p.1 p.2).id = x := by
  unfold boardIds
  rw [List.mem_toFinset, List.mem_map]

theorem initialMatchedIds_allMatched (b : Board)
    (hall : ∀ p ∈ allPositions, (b p.1 p.2).status = CellStatus.MATCHED) :
    initialMatchedIds b = boardIds b := by
  unfold initialMatchedIds
  apply Finset.Subset.antisymm
  · intro x hx
    rcases Finset.mem_union.mp hx with hx | hx
    · rw [findMatches_mem_iff] at hx
      obtain ⟨r, c, hr, hc, -, rfl⟩ := hx
      exact boardIds_mem b r c hr hc
    · rw [preMarkedIds_mem] at hx
      obtain ⟨p, hp, -, rfl⟩ := hx
      exact (boardIds_mem_iff b _).mpr ⟨p, hp, rfl⟩
  · intro x hx
    obtain ⟨p, hp, rfl⟩ := (boardIds_mem_iff b x).mp hx
    exact Finset.mem_union_right _
      ((preMarkedIds_mem b _).mpr ⟨p, hp, hall p hp, rfl⟩)

theorem lookupFold_some (b : Board) (x : CellId) :
    ∀ (l : List (Nat × Nat)) (acc : Option Cell) (cell : Cell),
      l.foldl (fun a p => if (b p.1 p.2).id = x then some (b p.1 p.2) else a) acc
        = some cell →
      acc = some cell ∨ ∃ p ∈ l, cell = b p.1 p.2 := by
  intro l
  induction l with
  | nil => intro acc cell h; exact Or.inl h
  | cons p l ih =>
    intro acc cell h
    rw [List.foldl_cons] at h
    rcases ih _ cell h with hacc | ⟨q, hq, hcell⟩
    · by_cases hid : (b p.1 p.2).id = x
      · rw [if_pos hid] at hacc
        exact Or.inr ⟨p, List.mem_cons_self p l, (Option.some.inj hacc).symm⟩
      · rw [if_neg hid] at hacc
        exact Or.inl hacc
    · exact Or.inr ⟨q, List.mem_cons_of_mem _ hq, hcell⟩

theorem lookupCell_some (b : Board) (x : CellId) (cell : Cell)
    (h : lookupCell b x = some cell) : ∃ p ∈ allPositions, cell = b p.1 p.2 := by
  rcases lookupFold_some b x allPositions none cell h with hacc | hmem
  · exact absurd hacc (by simp)
  · exact hmem

/-- Every blast target is a cell of the board, provided the triggering cell
itself sits on the board with consistent coordinates. -/
theorem targets_pos (b : Board) (cell : Cell) (rnd : Nat → Nat) (n : Nat)
    (hcons : consistentPositions b) (p : Nat × Nat) (hp : p ∈ allPositions)
    (hcell : cell = b p.1 p.2) :
    ∀ t ∈ (getSpecialBlastTargets b cell rnd n).1,
      ∃ q ∈ allPositions, t = b q.1 q.2 := by
  have hrc := hcons p hp
  have hpm := (allPositions_mem p).mp hp
  have hrow : cell.row < GRID_ROWS := by rw [hcell, hrc.1]; exact hpm.1
  have hcol : cell.col < GRID_COLS := by rw [hcell, hrc.2]; exact hpm.2
  intro t ht
  unfold getSpecialBlastTargets at ht
  split_ifs at ht
  · obtain ⟨c', hc', hbc⟩ := List.mem_map.mp ht
    exact ⟨(cell.row, c'),
      (allPositions_mem _).mpr ⟨hrow, List.mem_range.mp hc'⟩, hbc.symm⟩
  · obtain ⟨r', hr', hbc⟩ := List.mem_map.mp ht
    exact ⟨(r', cell.col),
      (allPositions_mem _).mpr ⟨List.mem_range.mp hr', hcol⟩, hbc.symm⟩
  · unfold areaCells at ht
    obtain ⟨r', hr', ht⟩ := List.mem_flatMap.mp ht
    obtain ⟨c', hc', hsome⟩ := List.mem_filterMap.mp ht
    split_ifs at hsome with hb
    refine ⟨(r'.toNat, c'.toNat), (allPositions_mem _).mpr ⟨?_, ?_⟩,
      (Option.some.inj hsome).symm⟩
    · omega
    · omega
  · obtain ⟨i, -, hbc⟩ := List.mem_map.mp ht
    refine ⟨(rnd (n + 2 * i) % GRID_ROWS, rnd (n + 2 * i + 1) % GRID_COLS),
      (allPositions_mem _).mpr ⟨?_, ?_⟩, hbc.symm⟩
    · exact Nat.mod_lt _ (by decide)
    · exact Nat.mod_lt _ (by decide)
  · simp at ht

theorem pushTargets_noop :
    ∀ (l : List Cell) (matched : Finset CellId),
      (∀ t ∈ l, t.id ∈ matched) → pushTargets l matched = (matched, []) := by
  intro l
  induction l with
  | nil => intro matched _; rfl
  | cons t l ih =>
    intro matched h
    unfold pushTargets
    rw [List.foldl_cons]
    dsimp only
    rw [if_pos (h t (List.mem_cons_self t l))]
    have := ih matched (fun t' ht' => h t' (List.mem_cons_of_mem _ ht'))
    unfold pushTargets at this
    exact this

/-- When every board cell's id is already in the matched set and positions
are consistent, the expansion loop adds nothing: every blast only retargets
already-matched cells. -/
theorem expandMatches_const (b : Board) (rnd : Nat → Nat)
    (hcons : consistentPositions b) (matched : Finset CellId)
    (hmat : ∀ p ∈ allPositions, (b p.1 p.2).id ∈ matched) :
    ∀ (fuel : Nat) (queue : List CellId) (processed : Finset CellId) (n : Nat),
      expandMatches b rnd fuel queue matched processed n = matched := by
  intro fuel
  induction fuel with
  | zero => intro queue processed n; rfl
  | succ fuel ih =>
    intro queue processed n
    cases queue with
    | nil => rfl
    | cons x rest =>
      unfold expandMatches
      cases hlook : lookupCell b x with
      | none =>
        exact ih rest processed n
      | some cell =>
        dsimp only
        by_cases hcond : cell.special ≠ SpecialType.NONE ∧ cell.id ∉ processed
        · rw [if_pos hcond]
          obtain ⟨p, hp, hcell⟩ := lookupCell_some b x cell hlook
          have htar : ∀ t ∈ (getSpecialBlastTargets b cell rnd n).1,
              t.id ∈ matched := by
            intro t ht
            obtain ⟨q, hq, rfl⟩ := targets_pos b cell rnd n hcons p hp hcell t ht
            exact hmat q hq
          rw [pushTargets_noop _ matched htar]
          dsimp only
          rw [List.append_nil]
          exact ih rest (insert cell.id processed) _
        · rw [if_neg hcond]
          exact ih rest processed n

/-- On a board whose every cell is pre-marked `MATCHED`, the resolution
pass's matched set is exactly the set of board ids. -/
theorem resolutionMatchedSet_allMatched (b : Board) (rnd : Nat → Nat) (fuel : Nat)
    (hcons : consistentPositions b)
    (hall : ∀ p ∈ allPositions, (b p.1 p.2).status = CellStatus.MATCHED) :
    resolutionMatchedSet b rnd fuel = boardIds b := by
  unfold resolutionMatchedSet
  rw [initialMatchedIds_allMatched b hall]
  exact expandMatches_const b rnd hcons (boardIds b)
    (fun p hp => (boardIds_mem_iff b _).mpr ⟨p, hp, rfl⟩) fuel (initialQueue b) ∅ 0

theorem boardIds_card (b : Board) (hinj : idsInjective b) :
    (boardIds b).card = 64 := by
  unfold boardIds
  have hnd : (allPositions.map (fun p => (b p.1 p.2).id)).Nodup :=
    List.Nodup.map_on (fun p hp q hq h => hinj p hp q hq h) (by decide)
  rw [List.toFinset_card_of_nodup hnd, List.length_map]
  rfl

theorem swapCells_id_eq (b : Board) (p1 p2 : Position) (r c : Nat) :
    (swapCells b p1 p2 r c).id =
      (b (swapSrc p1 p2 (r, c)).1 (swapSrc p1 p2 (r, c)).2).id := by
  unfold swapCells updateBoard swapSrc
  dsimp only
  by_cases h2 : r = p2.row ∧ c = p2.col
  · rw [if_pos h2, if_pos h2]
  · rw [if_neg h2, if_neg h2]
    by_cases h1 : r = p1.row ∧ c = p1.col
    · rw [if_pos h1, if_pos h1]
    · rw [if_neg h1, if_neg h1]

theorem swapSrc_inj (p1 p2 : Position) (p q : Nat × Nat)
    (h : swapSrc p1 p2 p = swapSrc p1 p2 q) : p = q := by
  obtain ⟨pr, pc⟩ := p
  obtain ⟨qr, qc⟩ := q
  unfold swapSrc at h
  dsimp only at h
  split_ifs at h <;> simp only [Prod.mk.injEq] at h ⊢ <;> omega

theorem swapSrc_mem (p1 p2 : Position)
    (h1r : p1.row < GRID_ROWS) (h1c : p1.col < GRID_COLS)
    (h2r : p2.row < GRID_ROWS) (h2c : p2.col < GRID_COLS)
    (p : Nat × Nat) (hp : p ∈ allPositions) : swapSrc p1 p2 p ∈ allPositions := by
  rw [allPositions_mem] at hp ⊢
  unfold swapSrc
  split_ifs
  · exact ⟨h1r, h1c⟩
  · exact ⟨h2r, h2c⟩
  · exact hp

theorem nukeSwap_consistent (b : Board) (p1 p2 : Position)
    (hcons : consistentPositions b) :
    consistentPositions (nukeBoard (swapCells b p1 p2)) := by
  intro p hp
  have hb := hcons p hp
  show (swapCells b p1 p2 p.1 p.2).row = p.1 ∧ (swapCells b p1 p2 p.1 p.2).col = p.2
  unfold swapCells updateBoard
  dsimp only
  split_ifs with h2 h1
  · exact ⟨h2.1.symm, h2.2.symm⟩
  · exact ⟨h1.1.symm, h1.2.symm⟩
  · exact hb

theorem nukeSwap_idsInjective (b : Board) (p1 p2 : Position)
    (hinj : idsInjective b)
    (h1r : p1.row < GRID_ROWS) (h1c : p1.col < GRID_COLS)
    (h2r : p2.row < GRID_ROWS) (h2c : p2.col < GRID_COLS) :
    idsInjective (nukeBoard (swapCells b p1 p2)) := by
  intro p hp q hq heq
  obtain ⟨pr, pc⟩ := p
  obtain ⟨qr, qc⟩ := q
  have e1 : (nukeBoard (swapCells b p1 p2) pr pc).id =
      (b (swapSrc p1 p2 (pr, pc)).1 (swapSrc p1 p2 (pr, pc)).2).id :=
    swapCells_id_eq b p1 p2 pr pc
  have e2 : (nukeBoard (swapCells b p1 p2) qr qc).id =
      (b (swapSrc p1 p2 (qr, qc)).1 (swapSrc p1 p2 (qr, qc)).2).id :=
    swapCells_id_eq b p1 p2 qr qc
  have hmemp := swapSrc_mem p1 p2 h1r h1c h2r h2c _ hp
  have hmemq := swapSrc_mem p1 p2 h1r h1c h2r h2c _ hq
  have hσ : swapSrc p1 p2 (pr, pc) = swapSrc p1 p2 (qr, qc) :=
    hinj _ hmemp _ hmemq (by rw [← e1, ← e2]; exact heq)
  exact swapSrc_inj p1 p2 _ _ hσ

/-- **C9.** For every board (with consistent cell coordinates and distinct
cell ids, as the program maintains), swapping two adjacent RAINBOW-special
cells takes the double-wildcard combo branch: every cell of the swapped
board is marked `MATCHED`, and the matched set of the following resolution
pass has exactly `GRID_ROWS * GRID_COLS = 64` elements — the whole board is
cleared. -/
theorem claim9_doubleRainbow_clears_board (b : Board) (p1 p2 : Position)
    (rnd : Nat → Nat) (fuel : Nat)
    (hcons : consistentPositions b) (hinj : idsInjective b)
    (h1r : p1.row < GRID_ROWS) (h1c : p1.col < GRID_COLS)
    (h2r : p2.row < GRID_ROWS) (h2c : p2.col < GRID_COLS)
    (_hadj : adjacentPos p1 p2)
    (_hs1 : (b p1.row p1.col).special = SpecialType.RAINBOW)
    (_hs2 : (b p2.row p2.col).special = SpecialType.RAINBOW) :
    (∀ p ∈ allPositions,
      (nukeBoard (swapCells b p1 p2) p.1 p.2).status = CellStatus.MATCHED) ∧
    (resolutionMatchedSet (nukeBoard (swapCells b p1 p2)) rnd fuel).card =
      GRID_ROWS * GRID_COLS := by
  constructor
  · intro p _
    rfl
  · rw [resolutionMatchedSet_allMatched _ rnd fuel
      (nukeSwap_consistent b p1 p2 hcons) (fun p _ => rfl)]
    rw [boardIds_card _ (nukeSwap_idsInjective b p1 p2 hinj h1r h1c h2r h2c)]
    rfl

set_option maxRecDepth 10000 in
/-- Witness for C9: the concrete scenario board with adjacent RAINBOW
specials at (0,0) and (0,1), the identity random sequence, and iteration
budget 70. -/
theorem claim9_witness :
    consistentPositions c9Board ∧ idsInjective c9Board ∧
    adjacentPos ⟨0, 0⟩ ⟨0, 1⟩ ∧
    (c9Board 0 0).special = SpecialType.RAINBOW ∧
    (c9Board 0 1).special = SpecialType.RAINBOW ∧
    (resolutionMatchedSet (nukeBoard (swapCells c9Board ⟨0, 0⟩ ⟨0, 1⟩))
      (fun n => n) 70).card = GRID_ROWS * GRID_COLS :=
  ⟨by decide, by decide, by decide, by decide, by decide,
    (claim9_doubleRainbow_clears_board c9Board ⟨0, 0⟩ ⟨0, 1⟩ (fun n => n) 70
      (by decide) (by decide) (by decide) (by decide) (by decide) (by decide)
      (by decide) (by decide) (by decide)).2⟩

end NeonMatch
